import Mathlib

/-!
Verification of the transport and dispatch layer of the cinema4d-mcp
repository.

Server side (`c4d_plugin/cinema4d_socket_plugin.py`): the class
`C4DSocketServer` with its per-connection loop `handle_client`, the
command router `process_command`, and the handler
`handle_execute_python`.

Client side (`src/cinema4d_mcp/server.py`): the one-shot connector
`send_to_c4d` together with `c4d_connection_context`, plus the module
constants `C4D_HOST` / `C4D_PORT`, and (`src/cinema4d_mcp/config.py`)
the environment-derived configuration values.

Python strings are modelled as `List Char`; `bytes` received from or
written to a socket are modelled at the text level (the code decodes
every chunk with UTF-8 immediately).  JSON values are modelled by the
inductive `Json` below, with integral numbers; the wire format of
`json.dumps` (default separators `", "` and `": "`, escaping of the
common control/meta characters) and the grammar of `json.loads` are
modelled concretely so that serialisation and parsing are executable.
External collaborators (the Cinema 4D API inside the domain handlers,
`exec` inside `handle_execute_python`, and the operating system's
socket behaviour) are modelled as explicit parameters.
-/

deriving instance DecidableEq for Except

/-- Characters the JSON grammar treats as insignificant whitespace. -/
def isJsonWs (c : Char) : Bool := c = ' ' || c = '\t' || c = '\n' || c = '\r'

/-- Drop leading JSON whitespace. -/
def skipWs (s : List Char) : List Char := s.dropWhile isJsonWs

/-- Characters removed by Python's `str.strip()` with no argument. -/
def isPyWs (c : Char) : Bool :=
  c = ' ' || c = '\t' || c = '\n' || c = '\r' || c = '\x0b' || c = '\x0c'

/-- Python `str.strip()`: remove leading and trailing whitespace. -/
def pyStrip (s : List Char) : List Char :=
  ((s.dropWhile isPyWs).reverse.dropWhile isPyWs).reverse

mutual
/-- A JSON value as produced by `json.loads` and consumed by
`json.dumps`.  Numbers are modelled as integers (the claims under
verification never depend on fractional values). -/
inductive Json where
  | null : Json
  | bool (b : Bool) : Json
  | num (n : Int) : Json
  | str (s : List Char) : Json
  | arr (elems : JsonList) : Json
  | obj (fields : JsonFields) : Json
deriving DecidableEq
/-- A list of JSON values (the payload of a JSON array). -/
inductive JsonList where
  | nil : JsonList
  | cons (hd : Json) (tl : JsonList) : JsonList
deriving DecidableEq
/-- The ordered key/value pairs of a JSON object.  Python preserves
insertion order in both `json.dumps` and `json.loads`. -/
inductive JsonFields where
  | nil : JsonFields
  | cons (key : List Char) (val : Json) (tl : JsonFields) : JsonFields
deriving DecidableEq
end

/-- The decimal digit character for `d` (meaningful for `d < 10`). -/
def digitChar (d : Nat) : Char :=
  if d = 0 then '0' else if d = 1 then '1' else if d = 2 then '2'
  else if d = 3 then '3' else if d = 4 then '4' else if d = 5 then '5'
  else if d = 6 then '6' else if d = 7 then '7' else if d = 8 then '8'
  else '9'

/-- Numeric value of a decimal digit character. -/
def digitVal (c : Char) : Nat := c.toNat - 48

/-- Decimal digits of a natural number, fuelled (any fuel above `n`
gives the exact digits, most significant first). -/
def natCharsGo : Nat → Nat → List Char
  | 0, _ => []
  | f+1, n => if n < 10 then [digitChar n] else natCharsGo f (n / 10) ++ [digitChar (n % 10)]

/-- Decimal digits of a natural number. -/
def natChars (n : Nat) : List Char := natCharsGo (n + 1) n

/-- Decimal rendering of an integer, as Python prints it. -/
def intChars (n : Int) : List Char :=
  if n < 0 then '-' :: natChars n.natAbs else natChars n.toNat

/-- The escape sequence `json.dumps` emits for one character of a JSON
string.  The quote, backslash and the common control characters are
escaped; other characters are carried as themselves (Python would
`\u`-escape the remaining control and non-ASCII characters, an encoding
detail that does not affect any property proved here). -/
def escapeChar (c : Char) : List Char :=
  if c = '"' then ['\\', '"']
  else if c = '\\' then ['\\', '\\']
  else if c = '\n' then ['\\', 'n']
  else if c = '\t' then ['\\', 't']
  else if c = '\r' then ['\\', 'r']
  else [c]

/-- The body `json.dumps` emits for a JSON string (without the
surrounding quotes). -/
def escapeString (s : List Char) : List Char :=
  s.foldr (fun c acc => escapeChar c ++ acc) []

mutual
/-- `json.dumps` with its default separators `", "` and `": "`, as the
plugin calls it in `handle_client` and the connector calls it in
`send_to_c4d`. -/
def json_dumps : Json → List Char
  | .null => "null".data
  | .bool true => "true".data
  | .bool false => "false".data
  | .num n => intChars n
  | .str s => '"' :: escapeString s ++ ['"']
  | .arr es => '[' :: dumpItems es ++ [']']
  | .obj fs => '\x7b' :: dumpFields fs ++ ['\x7d']
/-- Array elements rendered by `json.dumps`, joined by `", "`. -/
def dumpItems : JsonList → List Char
  | .nil => []
  | .cons v .nil => json_dumps v
  | .cons v (.cons w tl) => json_dumps v ++ ',' :: ' ' :: dumpItems (.cons w tl)
/-- Object members rendered by `json.dumps`: `"key": value`, joined by
`", "`. -/
def dumpFields : JsonFields → List Char
  | .nil => []
  | .cons k v .nil => '"' :: escapeString k ++ '"' :: ':' :: ' ' :: json_dumps v
  | .cons k v (.cons k2 v2 tl) =>
    ('"' :: escapeString k ++ '"' :: ':' :: ' ' :: json_dumps v)
      ++ ',' :: ' ' :: dumpFields (.cons k2 v2 tl)
end

/-- The character denoted by a backslash escape inside a JSON string
literal, as accepted by `json.loads` (`\uXXXX` escapes are not
modelled: the modelled serialiser never emits them). -/
def unescapeChar (c : Char) : Option Char :=
  if c = '"' then some '"'
  else if c = '\\' then some '\\'
  else if c = '/' then some '/'
  else if c = 'n' then some '\n'
  else if c = 't' then some '\t'
  else if c = 'r' then some '\r'
  else if c = 'b' then some '\x08'
  else if c = 'f' then some '\x0c'
  else none

/-- Parse the body of a JSON string literal up to and including the
closing quote; returns the decoded content and the remaining input. -/
def parseStringBody : List Char → Option (List Char × List Char)
  | [] => none
  | c :: rest =>
    if c = '"' then some ([], rest)
    else if c = '\\' then
      match rest with
      | [] => none
      | e :: r2 =>
        match unescapeChar e with
        | none => none
        | some d =>
          match parseStringBody r2 with
          | none => none
          | some (content, r3) => some (d :: content, r3)
    else
      match parseStringBody rest with
      | none => none
      | some (content, r2) => some (c :: content, r2)

/-- The numeric value of a run of decimal digit characters. -/
def digitsVal (ds : List Char) : Nat :=
  ds.foldl (fun acc c => acc * 10 + digitVal c) 0

/-- Parse a nonempty run of decimal digits into its value. -/
def parseDigits (s : List Char) : Option (Nat × List Char) :=
  let ds := s.takeWhile Char.isDigit
  let rest := s.dropWhile Char.isDigit
  if ds = [] then none
  else some (digitsVal ds, rest)

mutual
/-- Recursive-descent parser for one JSON value, fuelled to be
structurally total; every recursive call spends one unit of fuel, and
since each level of nesting consumes at least one input character,
`length input + 1` fuel always suffices (that is what `json_loads`
supplies). -/
def parseValue : Nat → List Char → Option (Json × List Char)
  | 0, _ => none
  | f+1, s =>
    match skipWs s with
    | [] => none
    | c :: rest =>
      if c = '\x7b' then
        match skipWs rest with
        | [] => none
        | d :: r2 =>
          if d = '\x7d' then some (Json.obj JsonFields.nil, r2)
          else
            match parseFields f (d :: r2) with
            | none => none
            | some (fs, r3) => some (Json.obj fs, r3)
      else if c = '[' then
        match skipWs rest with
        | [] => none
        | d :: r2 =>
          if d = ']' then some (Json.arr JsonList.nil, r2)
          else
            match parseItems f (d :: r2) with
            | none => none
            | some (es, r3) => some (Json.arr es, r3)
      else if c = '"' then
        match parseStringBody rest with
        | none => none
        | some (content, r2) => some (Json.str content, r2)
      else if c = '-' then
        match parseDigits rest with
        | none => none
        | some (n, r2) => some (Json.num (-(n : Int)), r2)
      else if c.isDigit then
        match parseDigits (c :: rest) with
        | none => none
        | some (n, r2) => some (Json.num (n : Int), r2)
      else if c = 't' then
        match rest with
        | 'r' :: 'u' :: 'e' :: r2 => some (Json.bool true, r2)
        | _ => none
      else if c = 'f' then
        match rest with
        | 'a' :: 'l' :: 's' :: 'e' :: r2 => some (Json.bool false, r2)
        | _ => none
      else if c = 'n' then
        match rest with
        | 'u' :: 'l' :: 'l' :: r2 => some (Json.null, r2)
        | _ => none
      else none
/-- Parse the elements of a nonempty JSON array after the opening
bracket, through the closing bracket. -/
def parseItems : Nat → List Char → Option (JsonList × List Char)
  | 0, _ => none
  | f+1, s =>
    match parseValue f s with
    | none => none
    | some (v, rest) =>
      match skipWs rest with
      | [] => none
      | d :: r2 =>
        if d = ',' then
          match parseItems f r2 with
          | none => none
          | some (vs, r3) => some (JsonList.cons v vs, r3)
        else if d = ']' then some (JsonList.cons v JsonList.nil, r2)
        else none
/-- Parse the members of a nonempty JSON object after the opening
brace, through the closing brace. -/
def parseFields : Nat → List Char → Option (JsonFields × List Char)
  | 0, _ => none
  | f+1, s =>
    match skipWs s with
    | [] => none
    | c :: rest1 =>
      if c = '"' then
        match parseStringBody rest1 with
        | none => none
        | some (k, r2) =>
          match skipWs r2 with
          | [] => none
          | d :: r3 =>
            if d = ':' then
              match parseValue f r3 with
              | none => none
              | some (v, r4) =>
                match skipWs r4 with
                | [] => none
                | e2 :: r5 =>
                  if e2 = ',' then
                    match parseFields f r5 with
                    | none => none
                    | some (fs, r6) => some (JsonFields.cons k v fs, r6)
                  else if e2 = '\x7d' then some (JsonFields.cons k v JsonFields.nil, r5)
                  else none
            else none
      else none
end

/-- `json.loads`: parse a complete JSON document, requiring the whole
input (up to trailing whitespace) to be consumed; failure carries the
`str()` of the raised `JSONDecodeError` (message schematic). -/
def json_loads (s : List Char) : Except (List Char) Json :=
  match parseValue (s.length + 1) s with
  | none => Except.error "Expecting value".data
  | some (v, rest) =>
    if skipWs rest = [] then Except.ok v else Except.error "Extra data".data

mutual
/-- Python `repr()` of a value decoded from JSON, as interpolated by
f-strings for container values: single-quoted strings, `None`, `True`,
`False`, and `", "` / `": "` separators (string-escape subtleties of
`repr` are not modelled; the claims only exercise scalar values). -/
def pyRepr : Json → List Char
  | .null => "None".data
  | .bool true => "True".data
  | .bool false => "False".data
  | .num n => intChars n
  | .str s => '\x27' :: s ++ ['\x27']
  | .arr es => '[' :: pyReprItems es ++ [']']
  | .obj fs => '\x7b' :: pyReprFields fs ++ ['\x7d']
/-- Elements of a Python list as rendered by `repr`. -/
def pyReprItems : JsonList → List Char
  | .nil => []
  | .cons v .nil => pyRepr v
  | .cons v (.cons w tl) => pyRepr v ++ ',' :: ' ' :: pyReprItems (.cons w tl)
/-- Members of a Python dict as rendered by `repr`. -/
def pyReprFields : JsonFields → List Char
  | .nil => []
  | .cons k v .nil => ('\x27' :: k ++ ['\x27', ':', ' ']) ++ pyRepr v
  | .cons k v (.cons k2 v2 tl) =>
    (('\x27' :: k ++ ['\x27', ':', ' ']) ++ pyRepr v) ++ ',' :: ' ' :: pyReprFields (.cons k2 v2 tl)
end

/-- Python `str()` of a value decoded from JSON, as used by the
f-string `f"Unknown command: {command_type}"`: a string interpolates as
its own characters, every other value as its `repr`. -/
def pyStr : Json → List Char
  | .str s => s
  | v => pyRepr v

/-- Python dict lookup as performed by `command.get(key, default)` on a
dict built by `json.loads`: with duplicate keys in the source text the
later binding wins, so the tail is searched first. -/
def pyGet : JsonFields → List Char → Option Json
  | .nil, _ => none
  | .cons k v tl, key =>
    match pyGet tl key with
    | some r => some r
    | none => if k = key then some v else none

/-- The outcome of invoking one registered handler: a returned Response
value, or a raised exception with its `str()`.  The domain handlers
call the external Cinema 4D API, so they enter the model as parameters
with this result type. -/
inductive HandlerResult where
  | ok (response : Json) : HandlerResult
  | exn (msg : List Char) : HandlerResult
deriving DecidableEq

/-- The Handler Registry: one entry per `elif` branch of
`process_command`.  `handle_get_scene_info` and `handle_list_objects`
are invoked without arguments; every other handler receives the full
parsed Command. -/
structure HandlerSet where
  get_scene_info : HandlerResult
  add_primitive : Json → HandlerResult
  modify_object : Json → HandlerResult
  list_objects : HandlerResult
  create_material : Json → HandlerResult
  apply_material : Json → HandlerResult
  render_frame : Json → HandlerResult
  set_keyframe : Json → HandlerResult
  save_scene : Json → HandlerResult
  load_scene : Json → HandlerResult
  execute_python : Json → HandlerResult

/-- The command names with a dispatch branch in `process_command`. -/
def registered_commands : List (List Char) :=
  ["get_scene_info".data, "add_primitive".data, "modify_object".data,
   "list_objects".data, "create_material".data, "apply_material".data,
   "render_frame".data, "set_keyframe".data, "save_scene".data,
   "load_scene".data, "execute_python".data]

/-- The `else` branch of `process_command`:
`{"error": f"Unknown command: {command_type}"}`. -/
def unknown_command_response (command_type : Json) : Json :=
  Json.obj (JsonFields.cons "error".data
    (Json.str ("Unknown command: ".data ++ pyStr command_type)) JsonFields.nil)

/-- The `if`/`elif` chain of `process_command`.  `command_type` is the
raw value of `command.get("command", "")`, compared against the string
literals; a non-string value matches no branch and reaches the `else`
arm. -/
def dispatch_chain (h : HandlerSet) (command_type command : Json) : HandlerResult :=
  if command_type = Json.str "get_scene_info".data then h.get_scene_info
  else if command_type = Json.str "add_primitive".data then h.add_primitive command
  else if command_type = Json.str "modify_object".data then h.modify_object command
  else if command_type = Json.str "list_objects".data then h.list_objects
  else if command_type = Json.str "create_material".data then h.create_material command
  else if command_type = Json.str "apply_material".data then h.apply_material command
  else if command_type = Json.str "render_frame".data then h.render_frame command
  else if command_type = Json.str "set_keyframe".data then h.set_keyframe command
  else if command_type = Json.str "save_scene".data then h.save_scene command
  else if command_type = Json.str "load_scene".data then h.load_scene command
  else if command_type = Json.str "execute_python".data then h.execute_python command
  else HandlerResult.ok (unknown_command_response command_type)

/-- `C4DSocketServer.process_command`.  `command.get("command", "")` is
evaluated before the `try` block, so on a non-dict JSON value the
`AttributeError` escapes uncaught (`Except.error`, message schematic);
inside the `try`, a raising handler is converted to
`{"error": f"Error processing command: {str(e)}"}`. -/
def process_command (h : HandlerSet) (command : Json) : Except (List Char) Json :=
  match command with
  | Json.obj fields =>
    let command_type := (pyGet fields "command".data).getD (Json.str [])
    Except.ok (match dispatch_chain h command_type command with
      | .ok r => r
      | .exn e => Json.obj (JsonFields.cons "error".data
          (Json.str ("Error processing command: ".data ++ e)) JsonFields.nil))
  | _ => Except.error "AttributeError: object has no attribute get".data

/-- The outcome of `exec(script)` under the redirected stdout: either
normal completion with the text the script printed, or a raised
`Exception` with its `str()`.  (`exec` runs arbitrary external code,
so it enters the model as a parameter.) -/
inductive ExecOutcome where
  | prints (output : List Char) : ExecOutcome
  | raises (msg : List Char) : ExecOutcome
deriving DecidableEq

/-- `C4DSocketServer.handle_execute_python`.  `sys.stdout` (of opaque
type `σ`) is saved, replaced by the `StringIO` buffer, and restored by
the `finally` block; the second component of the result is the value of
`sys.stdout` when the handler returns.  On a raised `Exception` the
message is embedded in the output string prefixed by `"Error: "`. -/
def handle_execute_python {σ : Type} (exec_behaviour : Json → ExecOutcome)
    (fields : JsonFields) (old_stdout redirected : σ) : Json × σ :=
  let script := (pyGet fields "script".data).getD (Json.str [])
  let _sys_stdout := redirected
  let output := match exec_behaviour script with
    | .prints out => out
    | .raises e => "Error: ".data ++ e
  (Json.obj (JsonFields.cons "result".data (Json.str output) JsonFields.nil), old_stdout)

/-- Python `buffer.split('\n', 1)` guarded by `'\n' in buffer`: the
first complete message and the remaining buffer, when a newline is
present. -/
def splitFirstNl : List Char → Option (List Char × List Char)
  | [] => none
  | c :: s =>
    if c = '\n' then some ([], s)
    else match splitFirstNl s with
      | none => none
      | some (m, r) => some (c :: m, r)

/-- How the inner `while '\n' in buffer` loop of `handle_client` ends:
either the buffer is drained to a newline-free remainder, or an
exception (a `json.loads` decode failure, or an error escaping
`process_command`) aborts the session; the exception case records the
buffer as it stood after the failing message was split off. -/
inductive DrainEnd where
  | ok (newBuffer : List Char) : DrainEnd
  | exn (msg : List Char) (buffer : List Char) : DrainEnd
deriving DecidableEq

/-- Fuelled body of the inner message loop of `handle_client`: split
off one newline-terminated message, `json.loads` it, route it through
`process_command`, serialise the Response and send it
(`json.dumps(response) + '\n'`), and continue with the remaining
buffer.  Each iteration removes one newline from the buffer, so any
fuel above `length buffer` is exact. -/
def drainGo (h : HandlerSet) : Nat → List Char → List (List Char) × DrainEnd
  | 0, buffer => ([], DrainEnd.ok buffer)
  | f+1, buffer =>
    match splitFirstNl buffer with
    | none => ([], DrainEnd.ok buffer)
    | some (message, rest) =>
      match json_loads message with
      | .error e => ([], DrainEnd.exn e rest)
      | .ok command =>
        match process_command h command with
        | .error e => ([], DrainEnd.exn e rest)
        | .ok response =>
          let line := json_dumps response ++ ['\n']
          let (sent, e) := drainGo h f rest
          (line :: sent, e)

/-- The inner message loop of `handle_client`: process every complete
newline-terminated message in the buffer, in order, sending each
response before the next message is examined. -/
def drainBuffer (h : HandlerSet) (buffer : List Char) : List (List Char) × DrainEnd :=
  drainGo h (buffer.length + 1) buffer

/-- Observable outcome of one `handle_client` session: the response
lines written back (in order), the buffer contents at each `recv` call
(instrumentation recording the loop's event order), the final buffer,
whether the loop was aborted by an exception, and whether the socket
was closed (`client.close()` runs on every exit path). -/
structure SessionResult where
  sent : List (List Char)
  recvBuffers : List (List Char)
  finalBuffer : List Char
  aborted : Bool
  closed : Bool
deriving DecidableEq

/-- The receive loop of `C4DSocketServer.handle_client` over a given
sequence of received chunks (each the UTF-8 text of one successful
`recv`; the end of the list models the peer closing the connection, at
which point `recv` returns empty and the loop breaks).  Each chunk is
appended to the buffer, then the buffer is drained of complete
messages; a decode or dispatch exception breaks the loop.  In every
case the client socket is closed afterwards. -/
def handle_client_loop (h : HandlerSet) (buffer : List Char) :
    List (List Char) → SessionResult
  | [] => ⟨[], [buffer], buffer, false, true⟩
  | chunk :: rest =>
    match drainBuffer h (buffer ++ chunk) with
    | (sent, DrainEnd.exn _ rem) => ⟨sent, [buffer], rem, true, true⟩
    | (sent, DrainEnd.ok newBuffer) =>
      let r := handle_client_loop h newBuffer rest
      ⟨sent ++ r.sent, buffer :: r.recvBuffers, r.finalBuffer, r.aborted, true⟩

/-- `C4DSocketServer.handle_client`: the per-connection loop, started
with an empty buffer. -/
def handle_client (h : HandlerSet) (chunks : List (List Char)) : SessionResult :=
  handle_client_loop h [] chunks

/-- The environment-visible behaviour of one client socket: the outcome
of `connect` per target endpoint, of `sendall` per payload, and the
successive results of `recv` (an empty chunk models the peer closing;
exhausting the list models a read that would block forever). -/
structure SocketBehavior where
  net : List Char × Nat → Except (List Char) Unit
  send : List Char → Except (List Char) Unit
  recvs : List (Except (List Char) (List Char))

/-- server.py line 12: `C4D_HOST = '127.0.0.1'` (a module constant of
the server module itself). -/
def server_C4D_HOST : List Char := "127.0.0.1".data

/-- server.py line 13: `C4D_PORT = 5555` (a module constant of the
server module itself). -/
def server_C4D_PORT : Nat := 5555

/-- The endpoint `c4d_connection_context` passes to `sock.connect`
(server.py line 28): the server module's own constants. -/
def connector_endpoint : List Char × Nat := (server_C4D_HOST, server_C4D_PORT)

/-- `c4d_connection_context`: attempt the connection to
`connector_endpoint`; on any exception mark the connection as not
connected but still yield it (the socket is closed in the `finally`
block either way).  Returns the `connected` flag of the yielded
`C4DConnection`. -/
def c4d_connection_context (sock : SocketBehavior) : Bool :=
  match sock.net connector_endpoint with
  | .ok _ => true
  | .error _ => false

/-- The `{"error": f"Communication error: {str(e)}"}` mapping produced
by the `except` clause of `send_to_c4d`. -/
def communication_error (e : List Char) : Json :=
  Json.obj (JsonFields.cons "error".data
    (Json.str ("Communication error: ".data ++ e)) JsonFields.nil)

/-- The receive loop of `send_to_c4d`: read chunks, stop on an empty
chunk (peer closed) or as soon as a chunk contains a newline;] a `recv`
exception propagates to the enclosing `try`.  `none` means every
supplied read was consumed without reaching a stop condition, i.e. the
call would block. -/
def recv_loop : List (Except (List Char) (List Char)) → List Char →
    Option (Except (List Char) (List Char))
  | [], _ => none
  | r :: rs, data =>
    match r with
    | .error e => some (.error e)
    | .ok chunk =>
      if chunk = [] then some (.ok data)
      else
        let data2 := data ++ chunk
        if '\n' ∈ chunk then some (.ok data2) else recv_loop rs data2

/-- `send_to_c4d`: guard on the connection flag, serialise the command
to one JSON line, send it, run the receive loop, decode / strip /
parse the accumulated bytes; any exception in that `try` block is
converted to a `Communication error` mapping.  The result is `none`
only when the receive loop would block forever — on every terminating
path the function returns a value and never raises. -/
def send_to_c4d (sock : SocketBehavior) (connected : Bool) (command : Json) :
    Option Json :=
  if connected = false then
    some (Json.obj (JsonFields.cons "error".data
      (Json.str "Not connected to Cinema 4D".data) JsonFields.nil))
  else
    let command_json := json_dumps command ++ ['\n']
    match sock.send command_json with
    | .error e => some (communication_error e)
    | .ok _ =>
      match recv_loop sock.recvs [] with
      | none => none
      | some (.error e) => some (communication_error e)
      | some (.ok data) =>
        match json_loads (pyStrip data) with
        | .error e => some (communication_error e)
        | .ok v => some v

/-- One orchestrator round trip, as every `@mcp.tool` performs it:
enter `c4d_connection_context`, then call `send_to_c4d` on the yielded
connection. -/
def client_round_trip (sock : SocketBehavior) (command : Json) : Option Json :=
  send_to_c4d sock (c4d_connection_context sock) command

/-- Python `int()` applied to a string: strip whitespace, optional
sign, decimal digits; anything else raises `ValueError` (message
schematic). -/
def pyInt (s : List Char) : Except (List Char) Int :=
  match pyStrip s with
  | '-' :: ds =>
    match parseDigits ds with
    | some (n, []) => Except.ok (-(n : Int))
    | _ => Except.error "ValueError: invalid literal for int".data
  | '+' :: ds =>
    match parseDigits ds with
    | some (n, []) => Except.ok (n : Int)
    | _ => Except.error "ValueError: invalid literal for int".data
  | ds =>
    match parseDigits ds with
    | some (n, []) => Except.ok (n : Int)
    | _ => Except.error "ValueError: invalid literal for int".data

/-- config.py line 6: `C4D_HOST = os.environ.get('C4D_HOST',
'127.0.0.1')`, read once at import. -/
def config_C4D_HOST (env : List Char → Option (List Char)) : List Char :=
  (env "C4D_HOST".data).getD "127.0.0.1".data

/-- config.py line 7: `C4D_PORT = int(os.environ.get('C4D_PORT',
5555))`, read once at import (`int` of the default integer is the
integer itself). -/
def config_C4D_PORT (env : List Char → Option (List Char)) : Except (List Char) Int :=
  match env "C4D_PORT".data with
  | none => Except.ok 5555
  | some s => pyInt s

/-- An all-stub Handler Registry: every handler returns `{}` except
`list_objects`, which returns `{"objects": []}`; used by concrete
witness sessions. -/
def stubHandlers : HandlerSet :=
  ⟨HandlerResult.ok (Json.obj JsonFields.nil),
   fun _ => HandlerResult.ok (Json.obj JsonFields.nil),
   fun _ => HandlerResult.ok (Json.obj JsonFields.nil),
   HandlerResult.ok (Json.obj (JsonFields.cons "objects".data (Json.arr JsonList.nil) JsonFields.nil)),
   fun _ => HandlerResult.ok (Json.obj JsonFields.nil),
   fun _ => HandlerResult.ok (Json.obj JsonFields.nil),
   fun _ => HandlerResult.ok (Json.obj JsonFields.nil),
   fun _ => HandlerResult.ok (Json.obj JsonFields.nil),
   fun _ => HandlerResult.ok (Json.obj JsonFields.nil),
   fun _ => HandlerResult.ok (Json.obj JsonFields.nil),
   fun _ => HandlerResult.ok (Json.obj JsonFields.nil)⟩

/-- A Handler Registry whose `add_primitive` handler raises; used by
concrete witness sessions. -/
def raisingHandlers : HandlerSet :=
  ⟨HandlerResult.ok (Json.obj JsonFields.nil),
   fun _ => HandlerResult.exn "boom".data,
   fun _ => HandlerResult.ok (Json.obj JsonFields.nil),
   HandlerResult.ok (Json.obj JsonFields.nil),
   fun _ => HandlerResult.ok (Json.obj JsonFields.nil),
   fun _ => HandlerResult.ok (Json.obj JsonFields.nil),
   fun _ => HandlerResult.ok (Json.obj JsonFields.nil),
   fun _ => HandlerResult.ok (Json.obj JsonFields.nil),
   fun _ => HandlerResult.ok (Json.obj JsonFields.nil),
   fun _ => HandlerResult.ok (Json.obj JsonFields.nil),
   fun _ => HandlerResult.ok (Json.obj JsonFields.nil)⟩


/-! ### Round trip of the modelled `json.dumps` and `json.loads` -/

/-- `true` when the input does not begin with a decimal digit, so that
a number parsed immediately before it cannot absorb its first
character. -/
def noLeadingDigit : List Char → Bool
  | [] => true
  | c :: _ => !c.isDigit

/-- The wire content of a sequence of newline-terminated lines. -/
def linesJoin : List (List Char) → List Char
  | [] => []
  | m :: ms => m ++ '\n' :: linesJoin ms

/-- The Python membership test `"error" in response` performed by every
orchestrator tool on the value returned by `send_to_c4d`. -/
def hasErrorKey : Json → Bool
  | Json.obj fields => (pyGet fields "error".data).isSome
  | _ => false

/-- Whether a decoded JSON value is a mapping (a Python dict). -/
def isMapping : Json → Bool
  | Json.obj _ => true
  | _ => false

/-- The registered handler selected by command name `s` raises with
message `e` when invoked the way `process_command` invokes it. -/
def handler_raises (h : HandlerSet) (s : List Char) (cmd : Json) (e : List Char) : Prop :=
  (s = "get_scene_info".data ∧ h.get_scene_info = HandlerResult.exn e) ∨
  (s = "add_primitive".data ∧ h.add_primitive cmd = HandlerResult.exn e) ∨
  (s = "modify_object".data ∧ h.modify_object cmd = HandlerResult.exn e) ∨
  (s = "list_objects".data ∧ h.list_objects = HandlerResult.exn e) ∨
  (s = "create_material".data ∧ h.create_material cmd = HandlerResult.exn e) ∨
  (s = "apply_material".data ∧ h.apply_material cmd = HandlerResult.exn e) ∨
  (s = "render_frame".data ∧ h.render_frame cmd = HandlerResult.exn e) ∨
  (s = "set_keyframe".data ∧ h.set_keyframe cmd = HandlerResult.exn e) ∨
  (s = "save_scene".data ∧ h.save_scene cmd = HandlerResult.exn e) ∨
  (s = "load_scene".data ∧ h.load_scene cmd = HandlerResult.exn e) ∨
  (s = "execute_python".data ∧ h.execute_python cmd = HandlerResult.exn e)

/-- The client-side failure situations named by the specification:
connection refused or connect timeout (`connect` raises), a send
failure, a receive failure (read timeout or reset), and either a peer
close mid-read leaving an incomplete line or a malformed response body
(either way the accumulated text does not parse). -/
def client_failure_mode (sock : SocketBehavior) (command : Json) : Prop :=
  (∃ e, sock.net connector_endpoint = Except.error e) ∨
  (∃ e, sock.send (json_dumps command ++ ['\n']) = Except.error e) ∨
  (∃ e, recv_loop sock.recvs [] = some (Except.error e)) ∨
  (∃ data e, recv_loop sock.recvs [] = some (Except.ok data) ∧
    json_loads (pyStrip data) = Except.error e)

theorem digitChar_isDigit {d : Nat} (hd : d < 10) : (digitChar d).isDigit = true := by
  interval_cases d <;> decide

theorem digitVal_digitChar {d : Nat} (hd : d < 10) : digitVal (digitChar d) = d := by
  interval_cases d <;> decide

theorem digit_char_facts {c : Char} (hc : c.isDigit = true) :
    isJsonWs c = false ∧ isPyWs c = false ∧ c ≠ '\x7b' ∧ c ≠ '[' ∧ c ≠ '"' ∧ c ≠ '-' ∧
      c ≠ ']' ∧ c ≠ '\x7d' ∧ c ≠ ',' ∧ c ≠ ':' ∧ c ≠ '\n' := by
  have hne : ∀ d : Char, d.isDigit = false → c ≠ d := by
    intro d hd hcd
    rw [hcd, hd] at hc
    exact Bool.false_ne_true hc
  refine ⟨?_, ?_, hne _ (by decide), hne _ (by decide), hne _ (by decide),
    hne _ (by decide), hne _ (by decide), hne _ (by decide), hne _ (by decide),
    hne _ (by decide), hne _ (by decide)⟩
  · have h1 := hne ' ' (by decide)
    have h2 := hne '\t' (by decide)
    have h3 := hne '\n' (by decide)
    have h4 := hne '\r' (by decide)
    simp [isJsonWs, h1, h2, h3, h4]
  · have h1 := hne ' ' (by decide)
    have h2 := hne '\t' (by decide)
    have h3 := hne '\n' (by decide)
    have h4 := hne '\r' (by decide)
    have h5 := hne '\x0b' (by decide)
    have h6 := hne '\x0c' (by decide)
    simp [isPyWs, h1, h2, h3, h4, h5, h6]

theorem natCharsGo_irrel :
    ∀ f1 f2 n, n < f1 → n < f2 → natCharsGo f1 n = natCharsGo f2 n := by
  intro f1
  induction f1 with
  | zero => intro f2 n h1 _; omega
  | succ f ih =>
    intro f2 n h1 h2
    cases f2 with
    | zero => omega
    | succ g =>
      rw [natCharsGo, natCharsGo]
      by_cases hn : n < 10
      · rw [if_pos hn, if_pos hn]
      · rw [if_neg hn, if_neg hn, ih g (n / 10) (by omega) (by omega)]

theorem natChars_unfold (n : Nat) :
    natChars n = if n < 10 then [digitChar n]
      else natChars (n / 10) ++ [digitChar (n % 10)] := by
  rw [natChars, natCharsGo]
  by_cases hn : n < 10
  · rw [if_pos hn, if_pos hn]
  · rw [if_neg hn, if_neg hn,
        natCharsGo_irrel n (n / 10 + 1) (n / 10) (by omega) (by omega)]
    rfl

theorem natChars_all_digits : ∀ n, ∀ c ∈ natChars n, c.isDigit = true := by
  intro n
  induction n using Nat.strong_induction_on with
  | _ n ih =>
    rw [natChars_unfold]
    by_cases hn : n < 10
    · rw [if_pos hn]
      intro c hc
      rw [List.mem_singleton] at hc
      subst hc
      exact digitChar_isDigit hn
    · rw [if_neg hn]
      intro c hc
      rcases List.mem_append.mp hc with hc | hc
      · exact ih (n / 10) (by omega) c hc
      · rw [List.mem_singleton] at hc
        subst hc
        exact digitChar_isDigit (Nat.mod_lt n (by omega))

theorem natChars_ne_nil (n : Nat) : natChars n ≠ [] := by
  rw [natChars_unfold]
  by_cases hn : n < 10
  · rw [if_pos hn]; simp
  · rw [if_neg hn]; simp

theorem digitsVal_append (ds : List Char) (c : Char) :
    digitsVal (ds ++ [c]) = digitsVal ds * 10 + digitVal c := by
  rw [digitsVal, digitsVal, List.foldl_append]
  rfl

theorem digitsVal_natChars : ∀ n, digitsVal (natChars n) = n := by
  intro n
  induction n using Nat.strong_induction_on with
  | _ n ih =>
    rw [natChars_unfold]
    by_cases hn : n < 10
    · rw [if_pos hn]
      show digitsVal ([] ++ [digitChar n]) = n
      rw [digitsVal_append]
      simp [digitsVal, digitVal_digitChar hn]
    · rw [if_neg hn, digitsVal_append, ih (n / 10) (by omega),
          digitVal_digitChar (Nat.mod_lt n (by omega))]
      omega

theorem span_digits :
    ∀ (ds rest : List Char), (∀ c ∈ ds, c.isDigit = true) →
      noLeadingDigit rest = true →
      (ds ++ rest).takeWhile Char.isDigit = ds ∧
        (ds ++ rest).dropWhile Char.isDigit = rest := by
  intro ds
  induction ds with
  | nil =>
    intro rest _ hrest
    cases rest with
    | nil => exact ⟨rfl, rfl⟩
    | cons c t =>
      have hcd : c.isDigit = false := by
        rw [noLeadingDigit] at hrest
        simpa using hrest
      constructor
      · rw [List.nil_append, List.takeWhile_cons, hcd]
        rfl
      · rw [List.nil_append, List.dropWhile_cons, hcd]
        rfl
  | cons d ds2 ih =>
    intro rest hds hrest
    have hd : d.isDigit = true := hds d (List.mem_cons_self d ds2)
    have hih := ih rest (fun c hc => hds c (List.mem_cons_of_mem d hc)) hrest
    constructor
    · rw [List.cons_append, List.takeWhile_cons, hd, if_pos rfl, hih.1]
    · rw [List.cons_append, List.dropWhile_cons, hd, if_pos rfl, hih.2]

theorem parseDigits_natChars (n : Nat) (rest : List Char)
    (hrest : noLeadingDigit rest = true) :
    parseDigits (natChars n ++ rest) = some (n, rest) := by
  obtain ⟨ht, hd⟩ := span_digits (natChars n) rest (natChars_all_digits n) hrest
  rw [parseDigits]
  simp only [ht, hd]
  rw [if_neg (natChars_ne_nil n), digitsVal_natChars]

theorem parseStringBody_quote (s : List Char) :
    parseStringBody ('"' :: s) = some ([], s) := by
  rw [parseStringBody.eq_def]
  dsimp only
  rw [if_pos rfl]

theorem parseStringBody_escaped (e d : Char) (s : List Char)
    (he : unescapeChar e = some d) :
    parseStringBody ('\\' :: e :: s) =
      match parseStringBody s with
      | none => none
      | some (content, r3) => some (d :: content, r3) := by
  cases hq : parseStringBody s with
  | none =>
    rw [parseStringBody.eq_def]
    dsimp only
    rw [if_neg (by decide), if_pos rfl, he, hq]
  | some p =>
    obtain ⟨content, r3⟩ := p
    rw [parseStringBody.eq_def]
    dsimp only
    rw [if_neg (by decide), if_pos rfl, he, hq]

theorem parseStringBody_other (c : Char) (s : List Char)
    (h1 : ¬c = '"') (h2 : ¬c = '\\') :
    parseStringBody (c :: s) =
      match parseStringBody s with
      | none => none
      | some (content, r2) => some (c :: content, r2) := by
  cases hq : parseStringBody s with
  | none =>
    rw [parseStringBody.eq_def]
    dsimp only
    rw [if_neg h1, if_neg h2, hq]
  | some p =>
    obtain ⟨content, r2⟩ := p
    rw [parseStringBody.eq_def]
    dsimp only
    rw [if_neg h1, if_neg h2, hq]

theorem parseStringBody_escape :
    ∀ (s rest : List Char),
      parseStringBody (escapeString s ++ '"' :: rest) = some (s, rest) := by
  intro s
  induction s with
  | nil =>
    intro rest
    rw [show escapeString [] = [] from rfl, List.nil_append, parseStringBody_quote]
  | cons c t ih =>
    intro rest
    have he : escapeString (c :: t) ++ '"' :: rest
        = escapeChar c ++ (escapeString t ++ '"' :: rest) := by
      show (escapeChar c ++ escapeString t) ++ '"' :: rest = _
      rw [List.append_assoc]
    rw [he]
    by_cases h1 : c = '"'
    · subst h1
      rw [show escapeChar '"' = ['\\', '"'] from rfl, List.cons_append, List.cons_append,
          List.nil_append,
          parseStringBody_escaped '"' '"' _ (show unescapeChar '"' = some '"' from rfl),
          ih rest]
    · by_cases h2 : c = '\\'
      · subst h2
        rw [show escapeChar '\\' = ['\\', '\\'] from rfl, List.cons_append, List.cons_append,
            List.nil_append,
            parseStringBody_escaped '\\' '\\' _ (show unescapeChar '\\' = some '\\' from rfl),
            ih rest]
      · by_cases h3 : c = '\n'
        · subst h3
          rw [show escapeChar '\n' = ['\\', 'n'] from rfl, List.cons_append, List.cons_append,
              List.nil_append,
              parseStringBody_escaped 'n' '\n' _ (show unescapeChar 'n' = some '\n' from rfl),
              ih rest]
        · by_cases h4 : c = '\t'
          · subst h4
            rw [show escapeChar '\t' = ['\\', 't'] from rfl, List.cons_append, List.cons_append,
                List.nil_append,
                parseStringBody_escaped 't' '\t' _ (show unescapeChar 't' = some '\t' from rfl),
                ih rest]
          · by_cases h5 : c = '\r'
            · subst h5
              rw [show escapeChar '\r' = ['\\', 'r'] from rfl, List.cons_append, List.cons_append,
                  List.nil_append,
                  parseStringBody_escaped 'r' '\r' _ (show unescapeChar 'r' = some '\r' from rfl),
                  ih rest]
            · have hesc : escapeChar c = [c] := by
                rw [escapeChar, if_neg h1, if_neg h2, if_neg h3, if_neg h4, if_neg h5]
              rw [hesc, List.singleton_append, parseStringBody_other c _ h1 h2, ih rest]

theorem skipWs_cons {c : Char} (s : List Char) (hc : isJsonWs c = false) :
    skipWs (c :: s) = c :: s := by
  rw [skipWs, List.dropWhile_cons, hc]
  rfl

theorem skipWs_ws_append :
    ∀ (pre s : List Char), (∀ c ∈ pre, isJsonWs c = true) →
      skipWs (pre ++ s) = skipWs s := by
  intro pre
  induction pre with
  | nil => intro s _; rfl
  | cons c t ih =>
    intro s hpre
    rw [List.cons_append, skipWs, List.dropWhile_cons,
        hpre c (List.mem_cons_self c t)]
    exact ih s (fun x hx => hpre x (List.mem_cons_of_mem c hx))

theorem parseValue_ws (f : Nat) (pre s : List Char)
    (hpre : ∀ c ∈ pre, isJsonWs c = true) :
    parseValue f (pre ++ s) = parseValue f s := by
  cases f with
  | zero => rfl
  | succ g => rw [parseValue, parseValue, skipWs_ws_append pre s hpre]

theorem parseItems_ws (f : Nat) (pre s : List Char)
    (hpre : ∀ c ∈ pre, isJsonWs c = true) :
    parseItems f (pre ++ s) = parseItems f s := by
  cases f with
  | zero => rfl
  | succ g => rw [parseItems, parseItems, parseValue_ws g pre s hpre]

theorem parseFields_ws (f : Nat) (pre s : List Char)
    (hpre : ∀ c ∈ pre, isJsonWs c = true) :
    parseFields f (pre ++ s) = parseFields f s := by
  cases f with
  | zero => rfl
  | succ g => rw [parseFields, parseFields, skipWs_ws_append pre s hpre]

theorem natChars_head (m : Nat) :
    ∃ d t, natChars m = digitChar d :: t ∧ d < 10 := by
  induction m using Nat.strong_induction_on with
  | _ m ih =>
    rw [natChars_unfold]
    by_cases hm : m < 10
    · exact ⟨m, [], by rw [if_pos hm], hm⟩
    · obtain ⟨d, t, hdt, hd⟩ := ih (m / 10) (by omega)
      exact ⟨d, t ++ [digitChar (m % 10)], by rw [if_neg hm, hdt, List.cons_append], hd⟩

theorem natChars_last (m : Nat) :
    ∃ d, (natChars m).getLast? = some (digitChar d) ∧ d < 10 := by
  rw [natChars_unfold]
  by_cases hm : m < 10
  · exact ⟨m, by rw [if_pos hm]; rfl, hm⟩
  · exact ⟨m % 10, by rw [if_neg hm]; exact List.getLast?_concat _, Nat.mod_lt m (by omega)⟩

/-- The first character of a serialised JSON value: never whitespace
and never a closing delimiter or separator. -/
theorem json_dumps_head (v : Json) :
    ∃ c t, json_dumps v = c :: t ∧ isJsonWs c = false ∧ isPyWs c = false ∧
      c ≠ ']' ∧ c ≠ '\x7d' := by
  cases v with
  | null => exact ⟨'n', _, rfl, by decide, by decide, by decide, by decide⟩
  | bool b =>
    cases b
    · exact ⟨'f', _, rfl, by decide, by decide, by decide, by decide⟩
    · exact ⟨'t', _, rfl, by decide, by decide, by decide, by decide⟩
  | num n =>
    rw [show json_dumps (Json.num n) = intChars n from rfl, intChars]
    by_cases hn : n < 0
    · rw [if_pos hn]
      exact ⟨'-', _, rfl, by decide, by decide, by decide, by decide⟩
    · rw [if_neg hn]
      obtain ⟨d, t, hdt, hd⟩ := natChars_head n.toNat
      obtain ⟨hws, hpws, _, _, _, _, h1, h2, _, _, _⟩ := digit_char_facts (digitChar_isDigit hd)
      exact ⟨digitChar d, t, hdt, hws, hpws, h1, h2⟩
  | str s => exact ⟨'"', _, rfl, by decide, by decide, by decide, by decide⟩
  | arr es => exact ⟨'[', _, rfl, by decide, by decide, by decide, by decide⟩
  | obj fs => exact ⟨'\x7b', _, rfl, by decide, by decide, by decide, by decide⟩

/-- The last character of a serialised JSON value is never
whitespace. -/
theorem json_dumps_last (v : Json) :
    ∃ c, (json_dumps v).getLast? = some c ∧ isPyWs c = false := by
  cases v with
  | null => exact ⟨'l', by decide, by decide⟩
  | bool b =>
    cases b
    · exact ⟨'e', by decide, by decide⟩
    · exact ⟨'e', by decide, by decide⟩
  | num n =>
    rw [show json_dumps (Json.num n) = intChars n from rfl, intChars]
    by_cases hn : n < 0
    · rw [if_pos hn]
      obtain ⟨d, hd, hdlt⟩ := natChars_last n.natAbs
      refine ⟨digitChar d, ?_, (digit_char_facts (digitChar_isDigit hdlt)).2.1⟩
      rw [show ('-' :: natChars n.natAbs) = ['-'] ++ natChars n.natAbs from rfl,
          List.getLast?_append_of_ne_nil _ (natChars_ne_nil _)]
      exact hd
    · rw [if_neg hn]
      obtain ⟨d, hd, hdlt⟩ := natChars_last n.toNat
      exact ⟨digitChar d, hd, (digit_char_facts (digitChar_isDigit hdlt)).2.1⟩
  | str s =>
    refine ⟨'"', ?_, by decide⟩
    rw [show json_dumps (Json.str s) = ('"' :: escapeString s) ++ ['"'] from rfl]
    exact List.getLast?_concat _
  | arr es =>
    refine ⟨']', ?_, by decide⟩
    rw [show json_dumps (Json.arr es) = ('[' :: dumpItems es) ++ [']'] from rfl]
    exact List.getLast?_concat _
  | obj fs =>
    refine ⟨'\x7d', ?_, by decide⟩
    rw [show json_dumps (Json.obj fs) = ('\x7b' :: dumpFields fs) ++ ['\x7d'] from rfl]
    exact List.getLast?_concat _

/-- The serialised elements of a nonempty JSON array start with the
first character of the first element. -/
theorem dumpItems_head (es : JsonList) (h : es ≠ JsonList.nil) :
    ∃ c t, dumpItems es = c :: t ∧ isJsonWs c = false ∧ c ≠ ']' := by
  cases es with
  | nil => exact absurd rfl h
  | cons w tl =>
    obtain ⟨c, t, hct, hws, _, hne, _⟩ := json_dumps_head w
    cases tl with
    | nil => exact ⟨c, t, by rw [show dumpItems (JsonList.cons w JsonList.nil) = json_dumps w from rfl, hct], hws, hne⟩
    | cons x xs =>
      refine ⟨c, t ++ ',' :: ' ' :: dumpItems (JsonList.cons x xs), ?_, hws, hne⟩
      rw [show dumpItems (JsonList.cons w (JsonList.cons x xs))
            = json_dumps w ++ ',' :: ' ' :: dumpItems (JsonList.cons x xs) from rfl, hct,
          List.cons_append]

/-- The serialised members of a nonempty JSON object start with the
opening quote of the first key. -/
theorem dumpFields_head (fs : JsonFields) (h : fs ≠ JsonFields.nil) :
    ∃ t, dumpFields fs = '"' :: t := by
  cases fs with
  | nil => exact absurd rfl h
  | cons k v tl =>
    cases tl with
    | nil => exact ⟨_, rfl⟩
    | cons k2 v2 xs => exact ⟨_, rfl⟩

mutual
/-- Parsing the serialisation of a JSON value consumes exactly the
serialised text and returns the value unchanged, for any sufficient
fuel and any continuation that does not start with a digit. -/
theorem parse_print : ∀ (v : Json) (fuel : Nat) (rest : List Char),
    (json_dumps v).length < fuel → noLeadingDigit rest = true →
    parseValue fuel (json_dumps v ++ rest) = some (v, rest)
  | Json.null, fuel, rest => fun hf _ => by
    obtain ⟨f, rfl⟩ : ∃ f, fuel = f + 1 := ⟨fuel - 1, by omega⟩
    rfl
  | Json.bool true, fuel, rest => fun hf _ => by
    obtain ⟨f, rfl⟩ : ∃ f, fuel = f + 1 := ⟨fuel - 1, by omega⟩
    rfl
  | Json.bool false, fuel, rest => fun hf _ => by
    obtain ⟨f, rfl⟩ : ∃ f, fuel = f + 1 := ⟨fuel - 1, by omega⟩
    rfl
  | Json.num n, fuel, rest => fun hf hb => by
    obtain ⟨f, rfl⟩ : ∃ f, fuel = f + 1 := ⟨fuel - 1, by omega⟩
    by_cases hn : n < 0
    · have hi : json_dumps (Json.num n) = '-' :: natChars n.natAbs := by
        rw [show json_dumps (Json.num n) = intChars n from rfl, intChars, if_pos hn]
      rw [hi, List.cons_append]
      rw [show parseValue (f+1) ('-' :: (natChars n.natAbs ++ rest))
            = (match parseDigits (natChars n.natAbs ++ rest) with
               | none => none
               | some (m, r2) => some (Json.num (-(m : Int)), r2)) from rfl]
      rw [parseDigits_natChars n.natAbs rest hb]
      dsimp only
      have hval : -((n.natAbs : Int)) = n := by omega
      rw [hval]
    · have hi : json_dumps (Json.num n) = natChars n.toNat := by
        rw [show json_dumps (Json.num n) = intChars n from rfl, intChars, if_neg hn]
      obtain ⟨d, t, hdt, hdlt⟩ := natChars_head n.toNat
      have hdig := digitChar_isDigit hdlt
      obtain ⟨hws, _, hne1, hne2, hne3, hne4, _, _, _, _, _⟩ := digit_char_facts hdig
      rw [hi, hdt, List.cons_append, parseValue, skipWs_cons _ hws]
      dsimp only
      rw [if_neg hne1, if_neg hne2, if_neg hne3, if_neg hne4, if_pos hdig,
          ← List.cons_append, ← hdt, parseDigits_natChars n.toNat rest hb]
      dsimp only
      have hval : ((n.toNat : Int)) = n := by omega
      rw [hval]
  | Json.str s, fuel, rest => fun hf _ => by
    obtain ⟨f, rfl⟩ : ∃ f, fuel = f + 1 := ⟨fuel - 1, by omega⟩
    have harr : json_dumps (Json.str s) ++ rest
        = '"' :: (escapeString s ++ '"' :: rest) := by
      rw [show json_dumps (Json.str s) = '"' :: (escapeString s ++ ['"']) from rfl,
          List.cons_append, List.append_assoc, List.singleton_append]
    rw [harr]
    rw [show parseValue (f+1) ('"' :: (escapeString s ++ '"' :: rest))
          = (match parseStringBody (escapeString s ++ '"' :: rest) with
             | none => none
             | some (content, r2) => some (Json.str content, r2)) from rfl]
    rw [parseStringBody_escape s rest]
  | Json.arr JsonList.nil, fuel, rest => fun hf _ => by
    obtain ⟨f, rfl⟩ : ∃ f, fuel = f + 1 := ⟨fuel - 1, by omega⟩
    rfl
  | Json.arr (JsonList.cons w tl), fuel, rest => fun hf _ => by
    obtain ⟨f, rfl⟩ : ∃ f, fuel = f + 1 := ⟨fuel - 1, by omega⟩
    have hflen : (json_dumps (Json.arr (JsonList.cons w tl))).length
        = (dumpItems (JsonList.cons w tl)).length + 2 := by
      rw [show json_dumps (Json.arr (JsonList.cons w tl))
            = '[' :: dumpItems (JsonList.cons w tl) ++ [']'] from rfl]
      simp [List.length_append]
    rw [hflen] at hf
    obtain ⟨c, t, hct, hws, hne⟩ :=
      dumpItems_head (JsonList.cons w tl) (fun hcon => JsonList.noConfusion hcon)
    have harr : json_dumps (Json.arr (JsonList.cons w tl)) ++ rest
        = '[' :: (dumpItems (JsonList.cons w tl) ++ ']' :: rest) := by
      rw [show json_dumps (Json.arr (JsonList.cons w tl))
            = '[' :: (dumpItems (JsonList.cons w tl) ++ [']']) from rfl,
          List.cons_append, List.append_assoc, List.singleton_append]
    rw [harr]
    rw [show parseValue (f+1) ('[' :: (dumpItems (JsonList.cons w tl) ++ ']' :: rest))
          = (match skipWs (dumpItems (JsonList.cons w tl) ++ ']' :: rest) with
             | [] => none
             | d :: r2 =>
               if d = ']' then some (Json.arr JsonList.nil, r2)
               else
                 match parseItems f (d :: r2) with
                 | none => none
                 | some (es, r3) => some (Json.arr es, r3)) from rfl]
    rw [hct, List.cons_append, skipWs_cons _ hws]
    dsimp only
    rw [if_neg hne, ← List.cons_append, ← hct,
        parse_print_items (JsonList.cons w tl) f rest
          (fun hcon => JsonList.noConfusion hcon) (by omega)]
  | Json.obj JsonFields.nil, fuel, rest => fun hf _ => by
    obtain ⟨f, rfl⟩ : ∃ f, fuel = f + 1 := ⟨fuel - 1, by omega⟩
    rfl
  | Json.obj (JsonFields.cons k v tl), fuel, rest => fun hf _ => by
    obtain ⟨f, rfl⟩ : ∃ f, fuel = f + 1 := ⟨fuel - 1, by omega⟩
    have hflen : (json_dumps (Json.obj (JsonFields.cons k v tl))).length
        = (dumpFields (JsonFields.cons k v tl)).length + 2 := by
      rw [show json_dumps (Json.obj (JsonFields.cons k v tl))
            = '\x7b' :: dumpFields (JsonFields.cons k v tl) ++ ['\x7d'] from rfl]
      simp [List.length_append]
    rw [hflen] at hf
    obtain ⟨t, hft⟩ :=
      dumpFields_head (JsonFields.cons k v tl) (fun hcon => JsonFields.noConfusion hcon)
    have harr : json_dumps (Json.obj (JsonFields.cons k v tl)) ++ rest
        = '\x7b' :: (dumpFields (JsonFields.cons k v tl) ++ '\x7d' :: rest) := by
      rw [show json_dumps (Json.obj (JsonFields.cons k v tl))
            = '\x7b' :: (dumpFields (JsonFields.cons k v tl) ++ ['\x7d']) from rfl,
          List.cons_append, List.append_assoc, List.singleton_append]
    rw [harr]
    rw [show parseValue (f+1) ('\x7b' :: (dumpFields (JsonFields.cons k v tl) ++ '\x7d' :: rest))
          = (match skipWs (dumpFields (JsonFields.cons k v tl) ++ '\x7d' :: rest) with
             | [] => none
             | d :: r2 =>
               if d = '\x7d' then some (Json.obj JsonFields.nil, r2)
               else
                 match parseFields f (d :: r2) with
                 | none => none
                 | some (fs, r3) => some (Json.obj fs, r3)) from rfl]
    rw [hft, List.cons_append, skipWs_cons _ (by decide)]
    dsimp only
    rw [if_neg (by decide), ← List.cons_append, ← hft,
        parse_print_fields (JsonFields.cons k v tl) f rest
          (fun hcon => JsonFields.noConfusion hcon) (by omega)]
/-- Parsing the serialised elements of a nonempty JSON array, followed
by the closing bracket, yields exactly those elements. -/
theorem parse_print_items : ∀ (es : JsonList) (fuel : Nat) (rest : List Char),
    es ≠ JsonList.nil → (dumpItems es).length + 1 < fuel →
    parseItems fuel (dumpItems es ++ ']' :: rest) = some (es, rest)
  | JsonList.nil, _, _ => fun h _ => absurd rfl h
  | JsonList.cons w JsonList.nil, fuel, rest => fun _ hf => by
    obtain ⟨g, rfl⟩ : ∃ g, fuel = g + 1 := ⟨fuel - 1, by omega⟩
    rw [show dumpItems (JsonList.cons w JsonList.nil) = json_dumps w from rfl] at hf ⊢
    rw [parseItems, parse_print w g (']' :: rest) (by omega) rfl]
    dsimp only
    rw [skipWs_cons _ (by decide)]
    dsimp only
    rw [if_neg (by decide), if_pos rfl]
  | JsonList.cons w (JsonList.cons x xs), fuel, rest => fun _ hf => by
    obtain ⟨g, rfl⟩ : ∃ g, fuel = g + 1 := ⟨fuel - 1, by omega⟩
    rw [show dumpItems (JsonList.cons w (JsonList.cons x xs))
          = json_dumps w ++ ',' :: ' ' :: dumpItems (JsonList.cons x xs) from rfl] at hf ⊢
    simp only [List.length_append, List.length_cons] at hf
    have harr : (json_dumps w ++ ',' :: ' ' :: dumpItems (JsonList.cons x xs)) ++ ']' :: rest
        = json_dumps w ++ (',' :: ' ' :: (dumpItems (JsonList.cons x xs) ++ ']' :: rest)) := by
      rw [List.append_assoc]
      rfl
    rw [harr, parseItems,
        parse_print w g (',' :: ' ' :: (dumpItems (JsonList.cons x xs) ++ ']' :: rest))
          (by omega) rfl]
    dsimp only
    rw [skipWs_cons _ (by decide)]
    dsimp only
    rw [if_pos rfl,
        show (' ' :: (dumpItems (JsonList.cons x xs) ++ ']' :: rest))
          = [' '] ++ (dumpItems (JsonList.cons x xs) ++ ']' :: rest) from rfl,
        parseItems_ws g [' '] _ (by intro z hz; rw [List.mem_singleton] at hz; subst hz; rfl),
        parse_print_items (JsonList.cons x xs) g rest
          (fun hcon => JsonList.noConfusion hcon) (by omega)]
/-- Parsing the serialised members of a nonempty JSON object, followed
by the closing brace, yields exactly those members. -/
theorem parse_print_fields : ∀ (fs : JsonFields) (fuel : Nat) (rest : List Char),
    fs ≠ JsonFields.nil → (dumpFields fs).length + 1 < fuel →
    parseFields fuel (dumpFields fs ++ '\x7d' :: rest) = some (fs, rest)
  | JsonFields.nil, _, _ => fun h _ => absurd rfl h
  | JsonFields.cons k v JsonFields.nil, fuel, rest => fun _ hf => by
    obtain ⟨g, rfl⟩ : ∃ g, fuel = g + 1 := ⟨fuel - 1, by omega⟩
    rw [show dumpFields (JsonFields.cons k v JsonFields.nil)
          = '"' :: (escapeString k ++ '"' :: ':' :: ' ' :: json_dumps v) from rfl] at hf ⊢
    simp only [List.length_cons, List.length_append] at hf
    have harr : ('"' :: (escapeString k ++ '"' :: ':' :: ' ' :: json_dumps v)) ++ '\x7d' :: rest
        = '"' :: (escapeString k ++ '"' :: ':' :: ' ' :: (json_dumps v ++ '\x7d' :: rest)) := by
      rw [List.cons_append, List.append_assoc]
      rfl
    rw [harr, parseFields, skipWs_cons _ (by decide)]
    dsimp only
    rw [if_pos rfl, parseStringBody_escape k (':' :: ' ' :: (json_dumps v ++ '\x7d' :: rest))]
    dsimp only
    rw [skipWs_cons _ (by decide)]
    dsimp only
    rw [if_pos rfl,
        show (' ' :: (json_dumps v ++ '\x7d' :: rest))
          = [' '] ++ (json_dumps v ++ '\x7d' :: rest) from rfl,
        parseValue_ws g [' '] _ (by intro z hz; rw [List.mem_singleton] at hz; subst hz; rfl),
        parse_print v g ('\x7d' :: rest) (by omega) rfl]
    dsimp only
    rw [skipWs_cons _ (by decide)]
    dsimp only
    rw [if_neg (by decide), if_pos rfl]
  | JsonFields.cons k v (JsonFields.cons k2 v2 xs), fuel, rest => fun _ hf => by
    obtain ⟨g, rfl⟩ : ∃ g, fuel = g + 1 := ⟨fuel - 1, by omega⟩
    rw [show dumpFields (JsonFields.cons k v (JsonFields.cons k2 v2 xs))
          = ('"' :: (escapeString k ++ '"' :: ':' :: ' ' :: json_dumps v))
              ++ ',' :: ' ' :: dumpFields (JsonFields.cons k2 v2 xs) from rfl] at hf ⊢
    simp only [List.length_cons, List.length_append] at hf
    have harr :
        (('"' :: (escapeString k ++ '"' :: ':' :: ' ' :: json_dumps v))
            ++ ',' :: ' ' :: dumpFields (JsonFields.cons k2 v2 xs)) ++ '\x7d' :: rest
        = '"' :: (escapeString k ++ '"' :: ':' :: ' ' ::
            (json_dumps v ++ ',' :: ' ' :: (dumpFields (JsonFields.cons k2 v2 xs)
              ++ '\x7d' :: rest))) := by
      rw [List.append_assoc, List.cons_append, List.append_assoc]
      rfl
    rw [harr, parseFields, skipWs_cons _ (by decide)]
    dsimp only
    rw [if_pos rfl, parseStringBody_escape k
        (':' :: ' ' :: (json_dumps v ++ ',' :: ' ' ::
          (dumpFields (JsonFields.cons k2 v2 xs) ++ '\x7d' :: rest)))]
    dsimp only
    rw [skipWs_cons _ (by decide)]
    dsimp only
    rw [if_pos rfl,
        show (' ' :: (json_dumps v ++ ',' :: ' ' ::
          (dumpFields (JsonFields.cons k2 v2 xs) ++ '\x7d' :: rest)))
          = [' '] ++ (json_dumps v ++ ',' :: ' ' ::
              (dumpFields (JsonFields.cons k2 v2 xs) ++ '\x7d' :: rest)) from rfl,
        parseValue_ws g [' '] _ (by intro z hz; rw [List.mem_singleton] at hz; subst hz; rfl),
        parse_print v g (',' :: ' ' ::
          (dumpFields (JsonFields.cons k2 v2 xs) ++ '\x7d' :: rest)) (by omega) rfl]
    dsimp only
    rw [skipWs_cons _ (by decide)]
    dsimp only
    rw [if_pos rfl,
        show (' ' :: (dumpFields (JsonFields.cons k2 v2 xs) ++ '\x7d' :: rest))
          = [' '] ++ (dumpFields (JsonFields.cons k2 v2 xs) ++ '\x7d' :: rest) from rfl,
        parseFields_ws g [' '] _ (by intro z hz; rw [List.mem_singleton] at hz; subst hz; rfl),
        parse_print_fields (JsonFields.cons k2 v2 xs) g rest
          (fun hcon => JsonFields.noConfusion hcon) (by omega)]
end

/-- The modelled `json.loads` inverts the modelled `json.dumps`: the
round trip is the identity on every JSON value. -/
theorem json_loads_dumps (v : Json) : json_loads (json_dumps v) = Except.ok v := by
  rw [json_loads]
  have h := parse_print v ((json_dumps v).length + 1) [] (by omega) rfl
  rw [List.append_nil] at h
  rw [h]
  rfl

theorem escapeChar_no_nl (c : Char) : '\n' ∉ escapeChar c := by
  rw [escapeChar]
  by_cases h1 : c = '"'
  · rw [if_pos h1]; decide
  rw [if_neg h1]
  by_cases h2 : c = '\\'
  · rw [if_pos h2]; decide
  rw [if_neg h2]
  by_cases h3 : c = '\n'
  · rw [if_pos h3]; decide
  rw [if_neg h3]
  by_cases h4 : c = '\t'
  · rw [if_pos h4]; decide
  rw [if_neg h4]
  by_cases h5 : c = '\r'
  · rw [if_pos h5]; decide
  rw [if_neg h5, List.mem_singleton]
  exact fun h => h3 h.symm

theorem escapeString_no_nl (s : List Char) : '\n' ∉ escapeString s := by
  induction s with
  | nil => simp [escapeString]
  | cons c t ih =>
    rw [show escapeString (c :: t) = escapeChar c ++ escapeString t from rfl]
    intro h
    rcases List.mem_append.mp h with h | h
    · exact escapeChar_no_nl c h
    · exact ih h

theorem natChars_no_nl (n : Nat) : '\n' ∉ natChars n := fun h =>
  absurd (natChars_all_digits n '\n' h) (by decide)

mutual
/-- The serialised form of a JSON value contains no raw newline: the
escaping in `json.dumps` is what makes newline framing sound. -/
theorem json_dumps_no_nl : ∀ v : Json, '\n' ∉ json_dumps v
  | Json.null => by decide
  | Json.bool true => by decide
  | Json.bool false => by decide
  | Json.num n => by
    rw [show json_dumps (Json.num n) = intChars n from rfl, intChars]
    by_cases hn : n < 0
    · rw [if_pos hn]
      intro h
      rcases List.mem_cons.mp h with h | h
      · exact absurd h (by decide)
      · exact natChars_no_nl _ h
    · rw [if_neg hn]
      exact natChars_no_nl _
  | Json.str s => by
    rw [show json_dumps (Json.str s) = '"' :: (escapeString s ++ ['"']) from rfl]
    intro h
    rcases List.mem_cons.mp h with h | h
    · exact absurd h (by decide)
    rcases List.mem_append.mp h with h | h
    · exact escapeString_no_nl s h
    · exact absurd h (by decide)
  | Json.arr es => by
    rw [show json_dumps (Json.arr es) = '[' :: (dumpItems es ++ [']']) from rfl]
    intro h
    rcases List.mem_cons.mp h with h | h
    · exact absurd h (by decide)
    rcases List.mem_append.mp h with h | h
    · exact dumpItems_no_nl es h
    · exact absurd h (by decide)
  | Json.obj fs => by
    rw [show json_dumps (Json.obj fs) = '\x7b' :: (dumpFields fs ++ ['\x7d']) from rfl]
    intro h
    rcases List.mem_cons.mp h with h | h
    · exact absurd h (by decide)
    rcases List.mem_append.mp h with h | h
    · exact dumpFields_no_nl fs h
    · exact absurd h (by decide)
theorem dumpItems_no_nl : ∀ es : JsonList, '\n' ∉ dumpItems es
  | JsonList.nil => by
    rw [show dumpItems JsonList.nil = [] from rfl]
    exact List.not_mem_nil _
  | JsonList.cons v JsonList.nil => by
    rw [show dumpItems (JsonList.cons v JsonList.nil) = json_dumps v from rfl]
    exact json_dumps_no_nl v
  | JsonList.cons v (JsonList.cons w tl) => by
    rw [show dumpItems (JsonList.cons v (JsonList.cons w tl))
          = json_dumps v ++ ',' :: ' ' :: dumpItems (JsonList.cons w tl) from rfl]
    intro h
    rcases List.mem_append.mp h with h | h
    · exact json_dumps_no_nl v h
    rcases List.mem_cons.mp h with h | h
    · exact absurd h (by decide)
    rcases List.mem_cons.mp h with h | h
    · exact absurd h (by decide)
    · exact dumpItems_no_nl (JsonList.cons w tl) h
theorem dumpFields_no_nl : ∀ fs : JsonFields, '\n' ∉ dumpFields fs
  | JsonFields.nil => by
    rw [show dumpFields JsonFields.nil = [] from rfl]
    exact List.not_mem_nil _
  | JsonFields.cons k v JsonFields.nil => by
    rw [show dumpFields (JsonFields.cons k v JsonFields.nil)
          = '"' :: (escapeString k ++ '"' :: ':' :: ' ' :: json_dumps v) from rfl]
    intro h
    rcases List.mem_cons.mp h with h | h
    · exact absurd h (by decide)
    rcases List.mem_append.mp h with h | h
    · exact escapeString_no_nl k h
    rcases List.mem_cons.mp h with h | h
    · exact absurd h (by decide)
    rcases List.mem_cons.mp h with h | h
    · exact absurd h (by decide)
    rcases List.mem_cons.mp h with h | h
    · exact absurd h (by decide)
    · exact json_dumps_no_nl v h
  | JsonFields.cons k v (JsonFields.cons k2 v2 tl) => by
    rw [show dumpFields (JsonFields.cons k v (JsonFields.cons k2 v2 tl))
          = ('"' :: (escapeString k ++ '"' :: ':' :: ' ' :: json_dumps v))
              ++ ',' :: ' ' :: dumpFields (JsonFields.cons k2 v2 tl) from rfl]
    intro h
    rcases List.mem_append.mp h with h | h
    · rcases List.mem_cons.mp h with h | h
      · exact absurd h (by decide)
      rcases List.mem_append.mp h with h | h
      · exact escapeString_no_nl k h
      rcases List.mem_cons.mp h with h | h
      · exact absurd h (by decide)
      rcases List.mem_cons.mp h with h | h
      · exact absurd h (by decide)
      rcases List.mem_cons.mp h with h | h
      · exact absurd h (by decide)
      · exact json_dumps_no_nl v h
    · rcases List.mem_cons.mp h with h | h
      · exact absurd h (by decide)
      rcases List.mem_cons.mp h with h | h
      · exact absurd h (by decide)
      · exact dumpFields_no_nl (JsonFields.cons k2 v2 tl) h
end

/-- Stripping a single-line payload terminated by the newline
delimiter recovers exactly the payload, provided the payload neither
starts nor ends with whitespace. -/
theorem pyStrip_line (c0 : Char) (t0 : List Char) (hc0 : isPyWs c0 = false)
    (cl : Char) (hcl : (c0 :: t0).getLast? = some cl) (hclw : isPyWs cl = false) :
    pyStrip ((c0 :: t0) ++ ['\n']) = c0 :: t0 := by
  rw [pyStrip, List.cons_append, List.dropWhile_cons, hc0]
  rw [if_neg Bool.false_ne_true, ← List.cons_append, List.reverse_append,
      List.reverse_singleton, List.singleton_append, List.dropWhile_cons,
      show isPyWs '\n' = true from rfl, if_pos rfl]
  have hhead : (c0 :: t0).reverse.head? = some cl := by
    rw [List.head?_reverse]
    exact hcl
  cases hR : (c0 :: t0).reverse with
  | nil => rw [hR] at hhead; exact absurd hhead (by simp)
  | cons a rr =>
    rw [hR] at hhead
    simp only [List.head?_cons, Option.some.injEq] at hhead
    subst hhead
    rw [List.dropWhile_cons, hclw, if_neg Bool.false_ne_true, ← hR,
        List.reverse_reverse]

theorem recv_accumulates :
    ∀ (pieces : List (List Char)) (D acc : List Char),
      pieces ≠ [] → (∀ p ∈ pieces, p ≠ []) →
      pieces.flatten = D ++ ['\n'] → '\n' ∉ D →
      recv_loop (pieces.map Except.ok) acc = some (Except.ok (acc ++ (D ++ ['\n']))) := by
  intro pieces
  induction pieces with
  | nil => intro D acc hne _ _ _; exact absurd rfl hne
  | cons p ps ih =>
    intro D acc _ hall hflat hD
    have hp : p ≠ [] := hall p (List.mem_cons_self p ps)
    cases hps : ps with
    | nil =>
      subst hps
      simp only [List.flatten_cons, List.flatten_nil, List.append_nil] at hflat
      have hmem : '\n' ∈ p := by rw [hflat]; simp
      rw [List.map_cons, List.map_nil, recv_loop]
      simp only [if_neg hp, if_pos hmem]
      rw [hflat]
    | cons q qs =>
      have hqin : q ∈ ps := by rw [hps]; exact List.mem_cons_self q qs
      have hfl_ne : ps.flatten ≠ [] := by
        intro hcon
        have := List.flatten_eq_nil_iff.mp hcon q hqin
        exact hall q (List.mem_cons_of_mem p hqin) this
      rw [List.flatten_cons] at hflat
      have hsplit : ∃ D2, D = p ++ D2 ∧ ps.flatten = D2 ++ ['\n'] := by
        rcases List.append_eq_append_iff.mp hflat with ⟨a2, ha1, ha2⟩ | ⟨c2, hc1, hc2⟩
        · exact ⟨a2, ha1, ha2⟩
        · cases c2 with
          | nil =>
            refine ⟨[], ?_, ?_⟩
            · simp only [List.append_nil] at hc1 ⊢
              exact hc1.symm
            · simpa using hc2.symm
          | cons x xs =>
            exfalso
            apply hfl_ne
            have hlen := congrArg List.length hc2
            simp only [List.length_cons, List.length_append, List.length_nil] at hlen
            exact List.length_eq_zero.mp (by omega)
      obtain ⟨D2, rfl, hflat2⟩ := hsplit
      have hnp : '\n' ∉ p := fun hmem => hD (List.mem_append_left D2 hmem)
      have hnD2 : '\n' ∉ D2 := fun hmem => hD (List.mem_append_right p hmem)
      rw [List.map_cons, recv_loop]
      simp only [if_neg hp, if_neg hnp]
      rw [← hps]
      rw [ih D2 (acc ++ p) (by rw [hps]; exact List.cons_ne_nil q qs)
          (fun x hx => hall x (List.mem_cons_of_mem p hx)) hflat2 hnD2]
      simp [List.append_assoc]

/-! ### Lemmas about newline framing and the server message loop -/

theorem splitFirstNl_eq_none {s : List Char} (hs : '\n' ∉ s) : splitFirstNl s = none := by
  induction s with
  | nil => rfl
  | cons c t ih =>
    simp only [List.mem_cons, not_or] at hs
    rw [splitFirstNl, if_neg (fun h => hs.1 h.symm), ih hs.2]

theorem splitFirstNl_append {s t m r : List Char}
    (hs : splitFirstNl s = some (m, r)) : splitFirstNl (s ++ t) = some (m, r ++ t) := by
  induction s generalizing m with
  | nil => simp [splitFirstNl] at hs
  | cons c s2 ih =>
    by_cases hc : c = '\n'
    · subst hc
      rw [splitFirstNl, if_pos rfl] at hs
      obtain ⟨rfl, rfl⟩ := Prod.mk.injEq .. ▸ Option.some.injEq .. ▸ hs
      simp [splitFirstNl]
    · rw [splitFirstNl, if_neg hc] at hs
      cases h2 : splitFirstNl s2 with
      | none => rw [h2] at hs; exact absurd hs (by simp)
      | some p =>
        obtain ⟨m2, r2⟩ := p
        rw [h2] at hs
        simp only [Option.some.injEq, Prod.mk.injEq] at hs
        obtain ⟨rfl, rfl⟩ := hs
        rw [List.cons_append, splitFirstNl, if_neg hc, ih h2]

theorem splitFirstNl_mk {m : List Char} (t : List Char) (hm : '\n' ∉ m) :
    splitFirstNl (m ++ '\n' :: t) = some (m, t) := by
  induction m with
  | nil => simp [splitFirstNl]
  | cons c m2 ih =>
    simp only [List.mem_cons, not_or] at hm
    rw [List.cons_append, splitFirstNl, if_neg (fun h => hm.1 h.symm)]
    rw [ih hm.2]

theorem splitFirstNl_length {s m r : List Char}
    (hs : splitFirstNl s = some (m, r)) : r.length < s.length := by
  induction s generalizing m with
  | nil => simp [splitFirstNl] at hs
  | cons c s2 ih =>
    by_cases hc : c = '\n'
    · subst hc
      rw [splitFirstNl, if_pos rfl] at hs
      simp only [Option.some.injEq, Prod.mk.injEq] at hs
      obtain ⟨rfl, rfl⟩ := hs
      simp
    · rw [splitFirstNl, if_neg hc] at hs
      cases h2 : splitFirstNl s2 with
      | none => rw [h2] at hs; exact absurd hs (by simp)
      | some p =>
        obtain ⟨m2, r2⟩ := p
        rw [h2] at hs
        simp only [Option.some.injEq, Prod.mk.injEq] at hs
        obtain ⟨rfl, rfl⟩ := hs
        have := ih h2
        simp only [List.length_cons]
        omega

theorem drainGo_irrel (h : HandlerSet) :
    ∀ f1 f2 b, b.length < f1 → b.length < f2 → drainGo h f1 b = drainGo h f2 b := by
  intro f1
  induction f1 with
  | zero => intro f2 b h1 h2; omega
  | succ f ih =>
    intro f2 b h1 h2
    cases f2 with
    | zero => omega
    | succ g =>
      rw [drainGo, drainGo]
      cases hs : splitFirstNl b with
      | none => rfl
      | some p =>
        obtain ⟨m, r⟩ := p
        have hr := splitFirstNl_length hs
        dsimp only
        rw [ih g r (by omega) (by omega)]

theorem drainBuffer_no_nl (h : HandlerSet) {b : List Char}
    (hb : splitFirstNl b = none) : drainBuffer h b = ([], DrainEnd.ok b) := by
  rw [drainBuffer, drainGo, hb]

theorem drainBuffer_cons (h : HandlerSet) {b m r : List Char}
    (hs : splitFirstNl b = some (m, r)) :
    drainBuffer h b =
      match json_loads m with
      | .error e => ([], DrainEnd.exn e r)
      | .ok c =>
        match process_command h c with
        | .error e => ([], DrainEnd.exn e r)
        | .ok resp =>
          ((json_dumps resp ++ ['\n']) :: (drainBuffer h r).1, (drainBuffer h r).2) := by
  have hr := splitFirstNl_length hs
  rw [drainBuffer, drainGo, hs]
  dsimp only
  cases hl : json_loads m with
  | error e => rfl
  | ok c =>
    dsimp only
    cases hp : process_command h c with
    | error e => rfl
    | ok resp =>
      dsimp only
      have hgo : drainGo h b.length r = drainBuffer h r :=
        drainGo_irrel h b.length (r.length + 1) r (by omega) (by omega)
      rw [hgo]

theorem drainBuffer_ok_no_nl (h : HandlerSet) :
    ∀ n b s nb, b.length ≤ n → drainBuffer h b = (s, DrainEnd.ok nb) →
      splitFirstNl nb = none := by
  intro n
  induction n with
  | zero =>
    intro b s nb hlen hd
    have hb : b = [] := List.length_eq_zero.mp (by omega)
    subst hb
    rw [drainBuffer_no_nl h (show splitFirstNl ([] : List Char) = none from rfl)] at hd
    simp only [Prod.mk.injEq, DrainEnd.ok.injEq] at hd
    rw [← hd.2]
    rfl
  | succ k ih =>
    intro b s nb hlen hd
    cases hs : splitFirstNl b with
    | none =>
      rw [drainBuffer_no_nl h hs] at hd
      simp only [Prod.mk.injEq, DrainEnd.ok.injEq] at hd
      rw [← hd.2]
      exact hs
    | some p =>
      obtain ⟨m, r⟩ := p
      have hr := splitFirstNl_length hs
      rw [drainBuffer_cons h hs] at hd
      cases hl : json_loads m with
      | error e => rw [hl] at hd; simp at hd
      | ok c =>
        rw [hl] at hd
        dsimp only at hd
        cases hp : process_command h c with
        | error e => rw [hp] at hd; simp at hd
        | ok resp =>
          rw [hp] at hd
          dsimp only at hd
          have h2 : (drainBuffer h r).2 = DrainEnd.ok nb := by
            have h3 := congrArg Prod.snd hd
            simpa using h3
          exact ih r (drainBuffer h r).1 nb (by omega) (by rw [← h2])

theorem drainBuffer_append (h : HandlerSet) :
    ∀ n b t, b.length ≤ n →
      drainBuffer h (b ++ t) =
        (match drainBuffer h b with
         | (s, DrainEnd.ok nb) =>
           (s ++ (drainBuffer h (nb ++ t)).1, (drainBuffer h (nb ++ t)).2)
         | (s, DrainEnd.exn e r) => (s, DrainEnd.exn e (r ++ t))) := by
  intro n
  induction n with
  | zero =>
    intro b t hlen
    have hb : b = [] := List.length_eq_zero.mp (by omega)
    subst hb
    rw [drainBuffer_no_nl h (show splitFirstNl ([] : List Char) = none from rfl)]
    simp
  | succ k ih =>
    intro b t hlen
    cases hs : splitFirstNl b with
    | none =>
      rw [drainBuffer_no_nl h hs]
      simp
    | some p =>
      obtain ⟨m, r⟩ := p
      have hr := splitFirstNl_length hs
      rw [drainBuffer_cons h hs, drainBuffer_cons h (splitFirstNl_append hs)]
      cases hl : json_loads m with
      | error e => rfl
      | ok c =>
        dsimp only
        cases hp : process_command h c with
        | error e => rfl
        | ok resp =>
          dsimp only
          rw [ih r t (by omega)]
          rcases hdr : drainBuffer h r with ⟨s1, e1⟩
          cases e1 with
          | ok nb => rfl
          | exn e2 r2 => rfl

theorem drain_good_lines (h : HandlerSet) :
    ∀ ms rest (f : List Char → Json),
      (∀ m ∈ ms, '\n' ∉ m ∧ ∃ c, json_loads m = Except.ok c ∧
        process_command h c = Except.ok (f m)) →
      drainBuffer h (linesJoin ms ++ rest)
        = (ms.map (fun m => json_dumps (f m) ++ ['\n']) ++ (drainBuffer h rest).1,
           (drainBuffer h rest).2) := by
  intro ms
  induction ms with
  | nil => intro rest f _; simp [linesJoin]
  | cons m ms ih =>
    intro rest f hgood
    obtain ⟨hnl, c, hload, hproc⟩ := hgood m (List.mem_cons_self m ms)
    have harr : linesJoin (m :: ms) ++ rest = m ++ '\n' :: (linesJoin ms ++ rest) := by
      simp [linesJoin]
    rw [harr, drainBuffer_cons h (splitFirstNl_mk _ hnl), hload]
    dsimp only
    rw [hproc]
    dsimp only
    rw [ih rest f (fun x hx => hgood x (List.mem_cons_of_mem m hx))]
    simp

theorem handle_client_loop_spec (h : HandlerSet) :
    ∀ cs b, splitFirstNl b = none →
      (handle_client_loop h b cs).sent = (drainBuffer h (b ++ cs.flatten)).1 ∧
      ((handle_client_loop h b cs).aborted
        = match (drainBuffer h (b ++ cs.flatten)).2 with
          | DrainEnd.ok _ => false
          | DrainEnd.exn _ _ => true) ∧
      (∀ nb, (drainBuffer h (b ++ cs.flatten)).2 = DrainEnd.ok nb →
        (handle_client_loop h b cs).finalBuffer = nb) ∧
      (handle_client_loop h b cs).closed = true := by
  intro cs
  induction cs with
  | nil =>
    intro b hb
    rw [List.flatten_nil, List.append_nil, drainBuffer_no_nl h hb]
    refine ⟨rfl, rfl, ?_, rfl⟩
    intro nb hnb
    simp only [DrainEnd.ok.injEq] at hnb
    rw [handle_client_loop, ← hnb]
  | cons c rest ih =>
    intro b hb
    have hjoin : b ++ (c :: rest).flatten = (b ++ c) ++ rest.flatten := by
      rw [List.flatten_cons, ← List.append_assoc]
    rw [hjoin, drainBuffer_append h (b ++ c).length (b ++ c) rest.flatten (le_refl _)]
    rw [handle_client_loop]
    rcases hd : drainBuffer h (b ++ c) with ⟨s1, e1⟩
    cases e1 with
    | exn e r => exact ⟨rfl, rfl, fun nb hnb => by simp at hnb, rfl⟩
    | ok nb =>
      have hnb : splitFirstNl nb = none :=
        drainBuffer_ok_no_nl h (b ++ c).length (b ++ c) s1 nb (le_refl _) hd
      obtain ⟨ih1, ih2, ih3, _⟩ := ih nb hnb
      refine ⟨?_, ?_, ?_, rfl⟩
      · simp only
        rw [ih1]
      · exact ih2
      · intro nb2 hnb2
        exact ih3 nb2 hnb2

/-- Stripping a serialised response line recovers the serialised
response. -/
theorem pyStrip_dumps_line (v : Json) :
    pyStrip (json_dumps v ++ ['\n']) = json_dumps v := by
  obtain ⟨c, t, hct, _, hpws, _, _⟩ := json_dumps_head v
  obtain ⟨cl, hcl, hclw⟩ := json_dumps_last v
  rw [hct] at hcl ⊢
  exact pyStrip_line c t hpws cl hcl hclw

theorem dispatch_chain_unknown (h : HandlerSet) (ct cmd : Json)
    (hct : ∀ n ∈ registered_commands, ct ≠ Json.str n) :
    dispatch_chain h ct cmd = HandlerResult.ok (unknown_command_response ct) := by
  simp only [registered_commands, List.forall_mem_cons] at hct
  obtain ⟨h1, h2, h3, h4, h5, h6, h7, h8, h9, h10, h11, -⟩ := hct
  rw [dispatch_chain, if_neg h1, if_neg h2, if_neg h3, if_neg h4, if_neg h5, if_neg h6,
      if_neg h7, if_neg h8, if_neg h9, if_neg h10, if_neg h11]

theorem dispatch_chain_get_scene_info (h : HandlerSet) (cmd : Json) :
    dispatch_chain h (Json.str "get_scene_info".data) cmd = h.get_scene_info := by
  rw [dispatch_chain, if_pos rfl]

theorem dispatch_chain_add_primitive (h : HandlerSet) (cmd : Json) :
    dispatch_chain h (Json.str "add_primitive".data) cmd = h.add_primitive cmd := by
  rw [dispatch_chain, if_neg (by decide), if_pos rfl]

theorem dispatch_chain_modify_object (h : HandlerSet) (cmd : Json) :
    dispatch_chain h (Json.str "modify_object".data) cmd = h.modify_object cmd := by
  rw [dispatch_chain, if_neg (by decide), if_neg (by decide), if_pos rfl]

theorem dispatch_chain_list_objects (h : HandlerSet) (cmd : Json) :
    dispatch_chain h (Json.str "list_objects".data) cmd = h.list_objects := by
  rw [dispatch_chain, if_neg (by decide), if_neg (by decide), if_neg (by decide), if_pos rfl]

theorem dispatch_chain_create_material (h : HandlerSet) (cmd : Json) :
    dispatch_chain h (Json.str "create_material".data) cmd = h.create_material cmd := by
  rw [dispatch_chain, if_neg (by decide), if_neg (by decide), if_neg (by decide),
      if_neg (by decide), if_pos rfl]

theorem dispatch_chain_apply_material (h : HandlerSet) (cmd : Json) :
    dispatch_chain h (Json.str "apply_material".data) cmd = h.apply_material cmd := by
  rw [dispatch_chain, if_neg (by decide), if_neg (by decide), if_neg (by decide),
      if_neg (by decide), if_neg (by decide), if_pos rfl]

theorem dispatch_chain_render_frame (h : HandlerSet) (cmd : Json) :
    dispatch_chain h (Json.str "render_frame".data) cmd = h.render_frame cmd := by
  rw [dispatch_chain, if_neg (by decide), if_neg (by decide), if_neg (by decide),
      if_neg (by decide), if_neg (by decide), if_neg (by decide), if_pos rfl]

theorem dispatch_chain_set_keyframe (h : HandlerSet) (cmd : Json) :
    dispatch_chain h (Json.str "set_keyframe".data) cmd = h.set_keyframe cmd := by
  rw [dispatch_chain, if_neg (by decide), if_neg (by decide), if_neg (by decide),
      if_neg (by decide), if_neg (by decide), if_neg (by decide), if_neg (by decide), if_pos rfl]

theorem dispatch_chain_save_scene (h : HandlerSet) (cmd : Json) :
    dispatch_chain h (Json.str "save_scene".data) cmd = h.save_scene cmd := by
  rw [dispatch_chain, if_neg (by decide), if_neg (by decide), if_neg (by decide),
      if_neg (by decide), if_neg (by decide), if_neg (by decide), if_neg (by decide),
      if_neg (by decide), if_pos rfl]

theorem dispatch_chain_load_scene (h : HandlerSet) (cmd : Json) :
    dispatch_chain h (Json.str "load_scene".data) cmd = h.load_scene cmd := by
  rw [dispatch_chain, if_neg (by decide), if_neg (by decide), if_neg (by decide),
      if_neg (by decide), if_neg (by decide), if_neg (by decide), if_neg (by decide),
      if_neg (by decide), if_neg (by decide), if_pos rfl]

theorem dispatch_chain_execute_python (h : HandlerSet) (cmd : Json) :
    dispatch_chain h (Json.str "execute_python".data) cmd = h.execute_python cmd := by
  rw [dispatch_chain, if_neg (by decide), if_neg (by decide), if_neg (by decide),
      if_neg (by decide), if_neg (by decide), if_neg (by decide), if_neg (by decide),
      if_neg (by decide), if_neg (by decide), if_neg (by decide), if_pos rfl]

theorem dispatch_chain_raises (h : HandlerSet) {s : List Char} {cmd : Json} {e : List Char}
    (hr : handler_raises h s cmd e) :
    dispatch_chain h (Json.str s) cmd = HandlerResult.exn e := by
  rcases hr with ⟨rfl, he⟩ | ⟨rfl, he⟩ | ⟨rfl, he⟩ | ⟨rfl, he⟩ | ⟨rfl, he⟩ | ⟨rfl, he⟩ |
    ⟨rfl, he⟩ | ⟨rfl, he⟩ | ⟨rfl, he⟩ | ⟨rfl, he⟩ | ⟨rfl, he⟩
  · rw [dispatch_chain_get_scene_info, he]
  · rw [dispatch_chain_add_primitive, he]
  · rw [dispatch_chain_modify_object, he]
  · rw [dispatch_chain_list_objects, he]
  · rw [dispatch_chain_create_material, he]
  · rw [dispatch_chain_apply_material, he]
  · rw [dispatch_chain_render_frame, he]
  · rw [dispatch_chain_set_keyframe, he]
  · rw [dispatch_chain_save_scene, he]
  · rw [dispatch_chain_load_scene, he]
  · rw [dispatch_chain_execute_python, he]

theorem handle_client_loop_recv_drained (h : HandlerSet) :
    ∀ cs b, splitFirstNl b = none →
      ∀ x ∈ (handle_client_loop h b cs).recvBuffers, splitFirstNl x = none := by
  intro cs
  induction cs with
  | nil =>
    intro b hb x hx
    rw [handle_client_loop] at hx
    simp only [List.mem_singleton] at hx
    rw [hx]
    exact hb
  | cons c rest ih =>
    intro b hb x hx
    rw [handle_client_loop] at hx
    rcases hd : drainBuffer h (b ++ c) with ⟨s1, e1⟩
    rw [hd] at hx
    cases e1 with
    | exn e r =>
      simp only [List.mem_singleton] at hx
      rw [hx]
      exact hb
    | ok nb =>
      simp only [List.mem_cons] at hx
      rcases hx with rfl | hx
      · exact hb
      · exact ih nb (drainBuffer_ok_no_nl h (b ++ c).length (b ++ c) s1 nb (le_refl _) hd) x hx

/-! ### The claims -/

/-- C1: on a server connection, a JSON command message split across two
or more receive calls is buffered across reads, reassembled without
data loss, parsed as one complete Command and answered exactly once;
bytes after the newline boundary are retained in the buffer for the
next message, never discarded, and the loop is not aborted. -/
theorem C1_split_message_reassembled (h : HandlerSet) (cs : List (List Char))
    (m t : List Char) (cmd resp : Json)
    (_hcount : 2 ≤ cs.length)
    (hcat : cs.flatten = m ++ '\n' :: t)
    (hm : '\n' ∉ m) (ht : '\n' ∉ t)
    (hload : json_loads m = Except.ok cmd)
    (hproc : process_command h cmd = Except.ok resp) :
    (handle_client h cs).sent = [json_dumps resp ++ ['\n']] ∧
    (handle_client h cs).finalBuffer = t ∧
    (handle_client h cs).aborted = false ∧
    (handle_client h cs).closed = true := by
  obtain ⟨hsent, habort, hfinal, hclosed⟩ := handle_client_loop_spec h cs [] rfl
  rw [List.nil_append] at hsent habort hfinal
  have hdrain : drainBuffer h cs.flatten
      = ([json_dumps resp ++ ['\n']], DrainEnd.ok t) := by
    rw [hcat, drainBuffer_cons h (splitFirstNl_mk t hm), hload]
    dsimp only
    rw [hproc]
    dsimp only
    rw [drainBuffer_no_nl h (splitFirstNl_eq_none ht)]
  rw [hdrain] at hsent habort hfinal
  dsimp only at hsent habort
  rw [handle_client]
  exact ⟨hsent, hfinal t rfl, habort, hclosed⟩

/-- Witness for C1: the message from the specification example, with
the opening fragment in the first receive and the closing fragment plus
newline in the second. -/
theorem C1_witness :
    2 ≤ (["\x7b\"command\":\"x".data, "\"\x7d\n".data] : List (List Char)).length ∧
    (handle_client stubHandlers ["\x7b\"command\":\"x".data, "\"\x7d\n".data]).sent
      = ["\x7b\"error\": \"Unknown command: x\"\x7d\n".data] := by
  refine ⟨by decide, ?_⟩
  rw [(C1_split_message_reassembled stubHandlers
        ["\x7b\"command\":\"x".data, "\"\x7d\n".data]
        "\x7b\"command\":\"x\"\x7d".data []
        (Json.obj (JsonFields.cons "command".data (Json.str "x".data) JsonFields.nil))
        (Json.obj (JsonFields.cons "error".data
          (Json.str "Unknown command: x".data) JsonFields.nil))
        (by decide) (by decide) (by decide) (by decide) (by decide) (by decide)).1]
  decide

/-- C2: for every target behaviour and Command, in every failure mode
among connection refused, timeout, peer closing mid-read, and
malformed response JSON, the Client Connector (`send_to_c4d` composed
with `c4d_connection_context`) returns a value rather than raising,
the value is a mapping, and the mapping contains the key `error`. -/
theorem C2_connector_returns_error_mapping (sock : SocketBehavior) (command : Json)
    (hfail : client_failure_mode sock command) :
    ∃ r, client_round_trip sock command = some r ∧ isMapping r = true ∧
      hasErrorKey r = true := by
  cases hnet : sock.net connector_endpoint with
  | error e =>
    have hconn : c4d_connection_context sock = false := by
      rw [c4d_connection_context, hnet]
    refine ⟨Json.obj (JsonFields.cons "error".data
      (Json.str "Not connected to Cinema 4D".data) JsonFields.nil), ?_, rfl, rfl⟩
    rw [client_round_trip, hconn, send_to_c4d, if_pos rfl]
  | ok u =>
    have hconn : c4d_connection_context sock = true := by
      rw [c4d_connection_context, hnet]
    rw [client_round_trip, hconn, send_to_c4d, if_neg (by decide)]
    dsimp only
    cases hsend : sock.send (json_dumps command ++ ['\n']) with
    | error e => exact ⟨communication_error e, rfl, rfl, rfl⟩
    | ok u2 =>
      dsimp only
      cases hrecv : recv_loop sock.recvs [] with
      | none =>
        exfalso
        rcases hfail with ⟨e, he⟩ | ⟨e, he⟩ | ⟨e, he⟩ | ⟨data, e, he, _⟩
        · rw [hnet] at he; exact Except.noConfusion he
        · rw [hsend] at he; exact Except.noConfusion he
        · rw [hrecv] at he; exact Option.noConfusion he
        · rw [hrecv] at he; exact Option.noConfusion he
      | some r =>
        cases r with
        | error e => exact ⟨communication_error e, rfl, rfl, rfl⟩
        | ok data =>
          dsimp only
          cases hparse : json_loads (pyStrip data) with
          | error e => exact ⟨communication_error e, rfl, rfl, rfl⟩
          | ok v =>
            exfalso
            rcases hfail with ⟨e, he⟩ | ⟨e, he⟩ | ⟨e, he⟩ | ⟨data2, e, he, he2⟩
            · rw [hnet] at he; exact Except.noConfusion he
            · rw [hsend] at he; exact Except.noConfusion he
            · rw [hrecv] at he
              simp only [Option.some.injEq] at he
              exact Except.noConfusion he
            · rw [hrecv] at he
              simp only [Option.some.injEq, Except.ok.injEq] at he
              rw [← he] at he2
              rw [hparse] at he2
              exact Except.noConfusion he2

/-- Witness for C2: a connection-refused behaviour. -/
theorem C2_witness :
    ∃ r, client_round_trip
        ⟨fun _ => Except.error "refused".data, fun _ => Except.ok (), []⟩
        (Json.obj JsonFields.nil) = some r ∧ isMapping r = true ∧
      hasErrorKey r = true :=
  C2_connector_returns_error_mapping
    ⟨fun _ => Except.error "refused".data, fun _ => Except.ok (), []⟩
    (Json.obj JsonFields.nil)
    (Or.inl ⟨"refused".data, rfl⟩)

/-- C3: a parsed Command whose `command` string value matches none of
the registered handler names is answered with exactly
`{"error": "Unknown command: <value>"}`, and the connection remains
open and usable: a subsequent valid Command on the same connection
still gets its response, with no abort. -/
theorem C3_unknown_command (h : HandlerSet) (fields : JsonFields) (s : List Char)
    (m1 m2 : List Char) (c2 r2 : Json)
    (hcmd : pyGet fields "command".data = some (Json.str s))
    (hs : s ∉ registered_commands)
    (hm1 : '\n' ∉ m1) (hload1 : json_loads m1 = Except.ok (Json.obj fields))
    (hm2 : '\n' ∉ m2) (hload2 : json_loads m2 = Except.ok c2)
    (hproc2 : process_command h c2 = Except.ok r2) :
    process_command h (Json.obj fields)
      = Except.ok (Json.obj (JsonFields.cons "error".data
          (Json.str ("Unknown command: ".data ++ s)) JsonFields.nil)) ∧
    (handle_client h [m1 ++ ['\n'], m2 ++ ['\n']]).sent
      = [json_dumps (Json.obj (JsonFields.cons "error".data
           (Json.str ("Unknown command: ".data ++ s)) JsonFields.nil)) ++ ['\n'],
         json_dumps r2 ++ ['\n']] ∧
    (handle_client h [m1 ++ ['\n'], m2 ++ ['\n']]).aborted = false := by
  have hct : ∀ n ∈ registered_commands, Json.str s ≠ Json.str n :=
    fun n hn hcon => hs ((Json.str.inj hcon) ▸ hn)
  have hfirst : process_command h (Json.obj fields)
      = Except.ok (Json.obj (JsonFields.cons "error".data
          (Json.str ("Unknown command: ".data ++ s)) JsonFields.nil)) := by
    rw [process_command.eq_def]
    dsimp only
    rw [hcmd]
    dsimp only [Option.getD]
    rw [dispatch_chain_unknown h _ _ hct]
    rfl
  refine ⟨hfirst, ?_, ?_⟩ <;>
  · have hd2 : drainBuffer h (m2 ++ ['\n'])
        = ([json_dumps r2 ++ ['\n']], DrainEnd.ok []) := by
      rw [show (m2 ++ ['\n']) = m2 ++ '\n' :: [] from rfl,
          drainBuffer_cons h (splitFirstNl_mk [] hm2), hload2]
      dsimp only
      rw [hproc2]
      dsimp only
      rw [drainBuffer_no_nl h (show splitFirstNl ([] : List Char) = none from rfl)]
    have hd1 : drainBuffer h (m1 ++ '\n' :: (m2 ++ ['\n']))
        = ([json_dumps (Json.obj (JsonFields.cons "error".data
             (Json.str ("Unknown command: ".data ++ s)) JsonFields.nil)) ++ ['\n'],
           json_dumps r2 ++ ['\n']], DrainEnd.ok []) := by
      rw [drainBuffer_cons h (splitFirstNl_mk _ hm1), hload1]
      dsimp only
      rw [hfirst]
      dsimp only
      rw [hd2]
    obtain ⟨hsent, habort, _, _⟩ :=
      handle_client_loop_spec h [m1 ++ ['\n'], m2 ++ ['\n']] [] rfl
    have hflat : (([m1 ++ ['\n'], m2 ++ ['\n']] : List (List Char))).flatten
        = m1 ++ '\n' :: (m2 ++ ['\n']) := by
      simp [List.append_assoc]
    rw [List.nil_append, hflat, hd1] at hsent habort
    dsimp only at hsent habort
    rw [handle_client]
    first
      | exact hsent
      | exact habort

/-- Witness for C3: the unregistered command name `ping`, followed by a
registered-shaped second command. -/
theorem C3_witness :
    (handle_client stubHandlers
        ["\x7b\"command\":\"ping\"\x7d".data ++ ['\n'],
         "\x7b\"command\":\"list_objects\"\x7d".data ++ ['\n']]).sent
      = ["\x7b\"error\": \"Unknown command: ping\"\x7d\n".data,
         "\x7b\"objects\": []\x7d\n".data] := by
  rw [(C3_unknown_command stubHandlers
      (JsonFields.cons "command".data (Json.str "ping".data) JsonFields.nil)
      "ping".data
      "\x7b\"command\":\"ping\"\x7d".data
      "\x7b\"command\":\"list_objects\"\x7d".data
      (Json.obj (JsonFields.cons "command".data (Json.str "list_objects".data) JsonFields.nil))
      (Json.obj (JsonFields.cons "objects".data (Json.arr JsonList.nil) JsonFields.nil))
      (by decide) (by decide) (by decide) (by decide) (by decide) (by decide)
      (by decide)).2.1]
  decide

/-- C4: a parsed Command whose registered handler raises is answered
with the catch-all Response `{"error": "<message>"}` (the message being
`Error processing command: <str(e)>`); the exception does not escape
the Dispatcher, and the connection stays open: a subsequent valid
Command still gets its response, with no abort. -/
theorem C4_handler_exception_caught (h : HandlerSet) (fields : JsonFields)
    (s e : List Char) (m1 m2 : List Char) (c2 r2 : Json)
    (hcmd : pyGet fields "command".data = some (Json.str s))
    (hraise : handler_raises h s (Json.obj fields) e)
    (hm1 : '\n' ∉ m1) (hload1 : json_loads m1 = Except.ok (Json.obj fields))
    (hm2 : '\n' ∉ m2) (hload2 : json_loads m2 = Except.ok c2)
    (hproc2 : process_command h c2 = Except.ok r2) :
    process_command h (Json.obj fields)
      = Except.ok (Json.obj (JsonFields.cons "error".data
          (Json.str ("Error processing command: ".data ++ e)) JsonFields.nil)) ∧
    (handle_client h [m1 ++ ['\n'], m2 ++ ['\n']]).sent
      = [json_dumps (Json.obj (JsonFields.cons "error".data
           (Json.str ("Error processing command: ".data ++ e)) JsonFields.nil)) ++ ['\n'],
         json_dumps r2 ++ ['\n']] ∧
    (handle_client h [m1 ++ ['\n'], m2 ++ ['\n']]).aborted = false := by
  have hfirst : process_command h (Json.obj fields)
      = Except.ok (Json.obj (JsonFields.cons "error".data
          (Json.str ("Error processing command: ".data ++ e)) JsonFields.nil)) := by
    rw [process_command.eq_def]
    dsimp only
    rw [hcmd]
    dsimp only [Option.getD]
    rw [dispatch_chain_raises h hraise]
  refine ⟨hfirst, ?_, ?_⟩ <;>
  · have hd2 : drainBuffer h (m2 ++ ['\n'])
        = ([json_dumps r2 ++ ['\n']], DrainEnd.ok []) := by
      rw [show (m2 ++ ['\n']) = m2 ++ '\n' :: [] from rfl,
          drainBuffer_cons h (splitFirstNl_mk [] hm2), hload2]
      dsimp only
      rw [hproc2]
      dsimp only
      rw [drainBuffer_no_nl h (show splitFirstNl ([] : List Char) = none from rfl)]
    have hd1 : drainBuffer h (m1 ++ '\n' :: (m2 ++ ['\n']))
        = ([json_dumps (Json.obj (JsonFields.cons "error".data
             (Json.str ("Error processing command: ".data ++ e)) JsonFields.nil)) ++ ['\n'],
           json_dumps r2 ++ ['\n']], DrainEnd.ok []) := by
      rw [drainBuffer_cons h (splitFirstNl_mk _ hm1), hload1]
      dsimp only
      rw [hfirst]
      dsimp only
      rw [hd2]
    obtain ⟨hsent, habort, _, _⟩ :=
      handle_client_loop_spec h [m1 ++ ['\n'], m2 ++ ['\n']] [] rfl
    have hflat : (([m1 ++ ['\n'], m2 ++ ['\n']] : List (List Char))).flatten
        = m1 ++ '\n' :: (m2 ++ ['\n']) := by
      simp [List.append_assoc]
    rw [List.nil_append, hflat, hd1] at hsent habort
    dsimp only at hsent habort
    rw [handle_client]
    first
      | exact hsent
      | exact habort

/-- Witness for C4: a raising `add_primitive` handler followed by a
working `list_objects` command on the same connection. -/
theorem C4_witness :
    (handle_client raisingHandlers
        ["\x7b\"command\":\"add_primitive\"\x7d".data ++ ['\n'],
         "\x7b\"command\":\"list_objects\"\x7d".data ++ ['\n']]).sent
      = ["\x7b\"error\": \"Error processing command: boom\"\x7d\n".data,
         "\x7b\x7d\n".data] := by
  rw [(C4_handler_exception_caught raisingHandlers
      (JsonFields.cons "command".data (Json.str "add_primitive".data) JsonFields.nil)
      "add_primitive".data "boom".data
      "\x7b\"command\":\"add_primitive\"\x7d".data
      "\x7b\"command\":\"list_objects\"\x7d".data
      (Json.obj (JsonFields.cons "command".data (Json.str "list_objects".data) JsonFields.nil))
      (Json.obj JsonFields.nil)
      (by decide) (Or.inr (Or.inl ⟨rfl, rfl⟩))
      (by decide) (by decide) (by decide) (by decide) (by decide)).2.1]
  decide

/-- C5: a connection receiving a line that is not valid JSON is
aborted entirely and closed; responses are sent only for the
well-formed lines that preceded the malformed one, and nothing is sent
for the malformed line or for anything after it — there is no
per-message resynchronisation. -/
theorem C5_malformed_line_fatal (h : HandlerSet) (cs : List (List Char))
    (ms : List (List Char)) (f : List Char → Json) (bad t e : List Char)
    (hcat : cs.flatten = linesJoin ms ++ (bad ++ '\n' :: t))
    (hgood : ∀ m ∈ ms, '\n' ∉ m ∧ ∃ c, json_loads m = Except.ok c ∧
      process_command h c = Except.ok (f m))
    (hbad : '\n' ∉ bad) (hbadload : json_loads bad = Except.error e) :
    (handle_client h cs).sent = ms.map (fun m => json_dumps (f m) ++ ['\n']) ∧
    (handle_client h cs).aborted = true ∧
    (handle_client h cs).closed = true := by
  obtain ⟨hsent, habort, _, hclosed⟩ := handle_client_loop_spec h cs [] rfl
  have hdrain : drainBuffer h cs.flatten
      = (ms.map (fun m => json_dumps (f m) ++ ['\n']), DrainEnd.exn e t) := by
    rw [hcat, drain_good_lines h ms (bad ++ '\n' :: t) f hgood,
        drainBuffer_cons h (splitFirstNl_mk t hbad), hbadload]
    simp
  rw [List.nil_append, hdrain] at hsent habort
  dsimp only at hsent habort
  rw [handle_client]
  exact ⟨hsent, habort, hclosed⟩

/-- Witness for C5: the malformed line from the specification example,
followed by a later line that never gets an answer. -/
theorem C5_witness :
    (handle_client stubHandlers ["\x7bnot json\x7d\nlater\n".data]).sent = [] ∧
    (handle_client stubHandlers ["\x7bnot json\x7d\nlater\n".data]).aborted = true := by
  have h := C5_malformed_line_fatal stubHandlers
    ["\x7bnot json\x7d\nlater\n".data] [] (fun _ => Json.null)
    "\x7bnot json\x7d".data "later\n".data "Expecting value".data
    (by decide) (by intro m hm; exact absurd hm (List.not_mem_nil m))
    (by decide) (by decide)
  exact ⟨h.1, h.2.1⟩

/-- C6: request/response alternation on one connection is strict: two
sequential Commands receive their Responses in send order, and the
buffer is fully drained at every receive call, so a second receive is
never issued while a completed message is still unanswered. -/
theorem C6_strict_alternation (h : HandlerSet) (cs : List (List Char))
    (m1 m2 t : List Char) (c1 r1 c2 r2 : Json)
    (hcat : cs.flatten = m1 ++ '\n' :: (m2 ++ '\n' :: t))
    (hm1 : '\n' ∉ m1) (hm2 : '\n' ∉ m2) (ht : '\n' ∉ t)
    (hload1 : json_loads m1 = Except.ok c1)
    (hproc1 : process_command h c1 = Except.ok r1)
    (hload2 : json_loads m2 = Except.ok c2)
    (hproc2 : process_command h c2 = Except.ok r2) :
    (handle_client h cs).sent = [json_dumps r1 ++ ['\n'], json_dumps r2 ++ ['\n']] ∧
    (∀ b ∈ (handle_client h cs).recvBuffers, splitFirstNl b = none) := by
  constructor
  · obtain ⟨hsent, _, _, _⟩ := handle_client_loop_spec h cs [] rfl
    have hdrain : drainBuffer h cs.flatten
        = ([json_dumps r1 ++ ['\n'], json_dumps r2 ++ ['\n']], DrainEnd.ok t) := by
      rw [hcat, drainBuffer_cons h (splitFirstNl_mk _ hm1), hload1]
      dsimp only
      rw [hproc1]
      dsimp only
      rw [drainBuffer_cons h (splitFirstNl_mk _ hm2), hload2]
      dsimp only
      rw [hproc2]
      dsimp only
      rw [drainBuffer_no_nl h (splitFirstNl_eq_none ht)]
    rw [List.nil_append, hdrain] at hsent
    dsimp only at hsent
    rw [handle_client]
    exact hsent
  · rw [handle_client]
    exact handle_client_loop_recv_drained h cs [] rfl

/-- Witness for C6: two commands arriving in two separate receives. -/
theorem C6_witness :
    (handle_client stubHandlers
        ["\x7b\"command\":\"x\"\x7d\n".data, "\x7b\"command\":\"y\"\x7d\n".data]).sent
      = ["\x7b\"error\": \"Unknown command: x\"\x7d\n".data,
         "\x7b\"error\": \"Unknown command: y\"\x7d\n".data] := by
  rw [(C6_strict_alternation stubHandlers
      ["\x7b\"command\":\"x\"\x7d\n".data, "\x7b\"command\":\"y\"\x7d\n".data]
      "\x7b\"command\":\"x\"\x7d".data "\x7b\"command\":\"y\"\x7d".data []
      (Json.obj (JsonFields.cons "command".data (Json.str "x".data) JsonFields.nil))
      (Json.obj (JsonFields.cons "error".data (Json.str "Unknown command: x".data) JsonFields.nil))
      (Json.obj (JsonFields.cons "command".data (Json.str "y".data) JsonFields.nil))
      (Json.obj (JsonFields.cons "error".data (Json.str "Unknown command: y".data) JsonFields.nil))
      (by decide) (by decide) (by decide) (by decide) (by decide) (by decide)
      (by decide) (by decide)).1]
  decide

/-- C7: a Response mapping returned normally by a registered handler is
delivered to the Client Connector's caller unchanged: the server
serialises it to one line, and parsing what the client accumulates from
the transported line (in arbitrarily many nonempty pieces) yields
exactly the same value. -/
theorem C7_response_round_trip (h : HandlerSet) (m : List Char) (c resp : Json)
    (pieces : List (List Char)) (net : List Char × Nat → Except (List Char) Unit)
    (command : Json)
    (hm : '\n' ∉ m) (hload : json_loads m = Except.ok c)
    (hproc : process_command h c = Except.ok resp)
    (hnet : net connector_endpoint = Except.ok ())
    (hpieces : pieces ≠ []) (hpieces2 : ∀ p ∈ pieces, p ≠ [])
    (hcat : pieces.flatten = json_dumps resp ++ ['\n']) :
    drainBuffer h (m ++ ['\n']) = ([json_dumps resp ++ ['\n']], DrainEnd.ok []) ∧
    client_round_trip ⟨net, fun _ => Except.ok (), pieces.map Except.ok⟩ command
      = some resp := by
  constructor
  · rw [show m ++ ['\n'] = m ++ '\n' :: [] from rfl,
        drainBuffer_cons h (splitFirstNl_mk [] hm), hload]
    dsimp only
    rw [hproc]
    dsimp only
    rw [drainBuffer_no_nl h (show splitFirstNl ([] : List Char) = none from rfl)]
  · have hconn : c4d_connection_context ⟨net, fun _ => Except.ok (), pieces.map Except.ok⟩
        = true := by
      rw [c4d_connection_context]
      dsimp only
      rw [hnet]
    rw [client_round_trip, hconn, send_to_c4d, if_neg (by decide)]
    dsimp only
    rw [recv_accumulates pieces (json_dumps resp) [] hpieces hpieces2 hcat
        (json_dumps_no_nl resp)]
    dsimp only
    rw [List.nil_append, pyStrip_dumps_line resp, json_loads_dumps resp]

/-- Witness for C7: the specification scenario — `list_objects` against
a stub registry returning `{"objects": []}` comes back unchanged. -/
theorem C7_witness :
    client_round_trip
        ⟨fun _ => Except.ok (), fun _ => Except.ok (),
         ["\x7b\"objects\": []\x7d\n".data].map Except.ok⟩
        (Json.obj (JsonFields.cons "command".data (Json.str "list_objects".data) JsonFields.nil))
      = some (Json.obj (JsonFields.cons "objects".data (Json.arr JsonList.nil) JsonFields.nil)) :=
  (C7_response_round_trip stubHandlers
    "\x7b\"command\":\"list_objects\"\x7d".data
    (Json.obj (JsonFields.cons "command".data (Json.str "list_objects".data) JsonFields.nil))
    (Json.obj (JsonFields.cons "objects".data (Json.arr JsonList.nil) JsonFields.nil))
    ["\x7b\"objects\": []\x7d\n".data]
    (fun _ => Except.ok ())
    (Json.obj (JsonFields.cons "command".data (Json.str "list_objects".data) JsonFields.nil))
    (by decide) (by decide) (by decide) rfl
    (by decide) (by intro p hp; rw [List.mem_singleton] at hp; subst hp; decide)
    (by decide)).2

/-- C8 counterexample: a well-formed JSON Command mapping without the
`command` field is not fatal to the connection. At the concrete input
`{"foo": "bar"}\n` the server sends back
`{"error": "Unknown command: "}` — a response is written and the loop
is not aborted, contradicting the claim that such a Command closes the
connection with no resynchronisation. -/
theorem C8_counterexample :
    (handle_client stubHandlers ["\x7b\"foo\": \"bar\"\x7d\n".data]).sent
        = ["\x7b\"error\": \"Unknown command: \"\x7d\n".data] ∧
    (handle_client stubHandlers ["\x7b\"foo\": \"bar\"\x7d\n".data]).sent ≠ [] ∧
    (handle_client stubHandlers ["\x7b\"foo\": \"bar\"\x7d\n".data]).aborted = false := by
  refine ⟨by decide, by decide, by decide⟩

/-- C8 (amended): `command.get("command", "")` defaults a missing
`command` field to the empty string, so a well-formed Command mapping
without that field is answered `{"error": "Unknown command: "}` like
any unknown command; the connection remains open with the remaining
buffer retained.  Only malformed JSON is fatal to the connection. -/
theorem C8_missing_command_answered (h : HandlerSet) (fields : JsonFields)
    (m t : List Char)
    (hnone : pyGet fields "command".data = none)
    (hm : '\n' ∉ m) (ht : '\n' ∉ t)
    (hload : json_loads m = Except.ok (Json.obj fields)) :
    process_command h (Json.obj fields)
      = Except.ok (Json.obj (JsonFields.cons "error".data
          (Json.str "Unknown command: ".data) JsonFields.nil)) ∧
    (handle_client h [m ++ '\n' :: t]).sent
      = [json_dumps (Json.obj (JsonFields.cons "error".data
           (Json.str "Unknown command: ".data) JsonFields.nil)) ++ ['\n']] ∧
    (handle_client h [m ++ '\n' :: t]).finalBuffer = t ∧
    (handle_client h [m ++ '\n' :: t]).aborted = false ∧
    (handle_client h [m ++ '\n' :: t]).closed = true := by
  have hct : ∀ n ∈ registered_commands, Json.str [] ≠ Json.str n := by
    have hnil : ∀ n ∈ registered_commands, n ≠ ([] : List Char) := by decide
    exact fun n hn hcon => hnil n hn ((Json.str.inj hcon).symm)
  have hfirst : process_command h (Json.obj fields)
      = Except.ok (Json.obj (JsonFields.cons "error".data
          (Json.str "Unknown command: ".data) JsonFields.nil)) := by
    rw [process_command.eq_def]
    dsimp only
    rw [hnone]
    dsimp only [Option.getD]
    rw [dispatch_chain_unknown h _ _ hct]
    rw [show unknown_command_response (Json.str [])
          = Json.obj (JsonFields.cons "error".data
              (Json.str ("Unknown command: ".data ++ [])) JsonFields.nil) from rfl,
        List.append_nil]
  obtain ⟨hsent, habort, hfinal, hclosed⟩ :=
    handle_client_loop_spec h [m ++ '\n' :: t] [] rfl
  have hflat : (([m ++ '\n' :: t] : List (List Char))).flatten = m ++ '\n' :: t := by
    simp
  have hdrain : drainBuffer h (m ++ '\n' :: t)
      = ([json_dumps (Json.obj (JsonFields.cons "error".data
           (Json.str "Unknown command: ".data) JsonFields.nil)) ++ ['\n']],
         DrainEnd.ok t) := by
    rw [drainBuffer_cons h (splitFirstNl_mk t hm), hload]
    dsimp only
    rw [hfirst]
    dsimp only
    rw [drainBuffer_no_nl h (splitFirstNl_eq_none ht)]
  rw [List.nil_append, hflat, hdrain] at hsent habort hfinal
  dsimp only at hsent habort
  rw [handle_client]
  exact ⟨hfirst, hsent, hfinal t rfl, habort, hclosed⟩

/-- Witness for the amended C8. -/
theorem C8_witness :
    (handle_client stubHandlers ["\x7b\"baz\": null\x7d".data ++ '\n' :: "rest".data]).sent
        = ["\x7b\"error\": \"Unknown command: \"\x7d\n".data] ∧
    (handle_client stubHandlers ["\x7b\"baz\": null\x7d".data ++ '\n' :: "rest".data]).aborted
        = false := by
  have h := C8_missing_command_answered stubHandlers
    (JsonFields.cons "baz".data Json.null JsonFields.nil)
    "\x7b\"baz\": null\x7d".data "rest".data
    (by decide) (by decide) (by decide) (by decide)
  refine ⟨?_, h.2.2.2.1⟩
  rw [h.2.1]
  decide

/-- C9 counterexample: with `C4D_PORT=5556` and `C4D_HOST=example.com`
in the environment, the config module reads those values, but the
endpoint the Client Connector passes to `connect` is still the
hard-coded `('127.0.0.1', 5555)` from the server module — the host and
port used for connections are not overridable via the environment. -/
theorem C9_counterexample :
    config_C4D_PORT (fun k => if k = "C4D_PORT".data then some "5556".data else none)
        = Except.ok 5556 ∧
    config_C4D_HOST (fun k => if k = "C4D_HOST".data then some "example.com".data else none)
        = "example.com".data ∧
    connector_endpoint = ("127.0.0.1".data, 5555) ∧
    connector_endpoint.2 ≠ 5556 ∧
    connector_endpoint.1 ≠ "example.com".data := by
  refine ⟨by decide, by decide, by decide, by decide, by decide⟩

/-- C9 (amended): the Client Connector's endpoint defaults to the
loopback address and fixed port 5555, but it is hard-coded in the
server module rather than taken from the environment: the connector's
behaviour depends on the network only through the fixed
`connector_endpoint`, while the two environment configuration values
read once at process start in the config module (`C4D_HOST`,
`C4D_PORT`) are not consulted by it. -/
theorem C9_endpoint_hardcoded (net1 net2 : List Char × Nat → Except (List Char) Unit)
    (send : List Char → Except (List Char) Unit)
    (recvs : List (Except (List Char) (List Char))) (command : Json)
    (env : List Char → Option (List Char)) (hostOverride : List Char)
    (hsame : net1 connector_endpoint = net2 connector_endpoint) :
    connector_endpoint = ("127.0.0.1".data, 5555) ∧
    client_round_trip ⟨net1, send, recvs⟩ command
      = client_round_trip ⟨net2, send, recvs⟩ command ∧
    config_C4D_HOST (fun k => if k = "C4D_HOST".data then some hostOverride else env k)
      = hostOverride := by
  refine ⟨rfl, ?_, ?_⟩
  · rw [client_round_trip, client_round_trip, c4d_connection_context,
        c4d_connection_context]
    dsimp only
    rw [hsame]
    rfl
  · rw [config_C4D_HOST]
    dsimp only
    rw [if_pos rfl]
    rfl

/-- Witness for the amended C9. -/
theorem C9_witness :
    client_round_trip
        ⟨fun _ => Except.error "refused".data, fun _ => Except.ok (), []⟩
        (Json.obj JsonFields.nil)
      = client_round_trip
        ⟨fun e => if e = connector_endpoint then Except.error "refused".data
           else Except.ok (), fun _ => Except.ok (), []⟩
        (Json.obj JsonFields.nil) ∧
    config_C4D_HOST (fun k => if k = "C4D_HOST".data then some "c4dhost".data
      else (fun _ => none) k) = "c4dhost".data := by
  have h := C9_endpoint_hardcoded
    (fun _ => Except.error "refused".data)
    (fun e => if e = connector_endpoint then Except.error "refused".data else Except.ok ())
    (fun _ => Except.ok ()) [] (Json.obj JsonFields.nil)
    (fun _ => none) "c4dhost".data
    (by decide)
  exact ⟨h.2.1, h.2.2⟩

/-- C10: for every input script (and every behaviour of the external
`exec`), `handle_execute_python` returns a Response of the shape
`{"result": <string>}` with `sys.stdout` restored, never a Response
containing the `error` key; when the executed script raises an
Exception, the failure is embedded in the `result` string prefixed
with `"Error: "` rather than surfaced as an error-shaped response. -/
theorem C10_execute_python_result_shape {σ : Type}
    (exec_behaviour : Json → ExecOutcome) (fields : JsonFields)
    (old_stdout redirected : σ) :
    (∃ s, handle_execute_python exec_behaviour fields old_stdout redirected
        = (Json.obj (JsonFields.cons "result".data (Json.str s) JsonFields.nil),
           old_stdout)) ∧
    hasErrorKey (handle_execute_python exec_behaviour fields old_stdout redirected).1
      = false ∧
    (∀ e, exec_behaviour ((pyGet fields "script".data).getD (Json.str []))
        = ExecOutcome.raises e →
      (handle_execute_python exec_behaviour fields old_stdout redirected).1
        = Json.obj (JsonFields.cons "result".data
            (Json.str ("Error: ".data ++ e)) JsonFields.nil)) := by
  refine ⟨?_, ?_, ?_⟩
  · cases ho : exec_behaviour ((pyGet fields "script".data).getD (Json.str [])) with
    | prints out =>
      refine ⟨out, ?_⟩
      rw [handle_execute_python]
      dsimp only
      rw [ho]
    | raises e =>
      refine ⟨"Error: ".data ++ e, ?_⟩
      rw [handle_execute_python]
      dsimp only
      rw [ho]
  · cases ho : exec_behaviour ((pyGet fields "script".data).getD (Json.str [])) with
    | prints out =>
      rw [handle_execute_python]
      dsimp only
      rw [ho]
      rfl
    | raises e =>
      rw [handle_execute_python]
      dsimp only
      rw [ho]
      rfl
  · intro e ho
    rw [handle_execute_python]
    dsimp only
    rw [ho]

/-- Witness for C10: a script whose execution raises `boom`. -/
theorem C10_witness :
    (handle_execute_python (fun _ => ExecOutcome.raises "boom".data)
        (JsonFields.cons "script".data (Json.str "x".data) JsonFields.nil)
        (0 : Nat) (1 : Nat)).1
      = Json.obj (JsonFields.cons "result".data
          (Json.str "Error: boom".data) JsonFields.nil) := by
  have h := (C10_execute_python_result_shape (fun _ => ExecOutcome.raises "boom".data)
      (JsonFields.cons "script".data (Json.str "x".data) JsonFields.nil)
      (0 : Nat) (1 : Nat)).2.2 "boom".data rfl
  rw [h]
  decide
